import Mathlib

/-!
A formal model of the bubblebeats script-editor core.

The document model (`Bubble`, `BubblePair`, `Script`) and the document
mutators are translated from `src/hooks/useScript.ts`; the timing engine
from `src/utils/timing.ts`; the zoom/fit computation and the edit-mode
coordinator from `src/components/BubbleTimeline.tsx`.

Modelling conventions:
* JavaScript numbers are modelled as `ℚ` (all arithmetic performed by the
  code in scope is exact on small rationals); `Math.floor`, `Math.round`
  and `%` get explicit models (`jsFloor`, `jsRound`, `jsMod`).
* `generateId()` is modelled as a sequential counter: operations that
  allocate ids take the next free id `g : Nat` and return the advanced
  counter.  Freshness of generated ids is expressed by the hypothesis that
  every id already in the document is `< g`.
* Optional fields (`visualSpan?: number`, `manualDuration?: boolean`)
  become `Option Int` / `Option Bool`; the JS `x ?? 1` is `orOne`,
  JS truthiness of `manualDuration` is `= some true`.
* JS `Array.prototype.splice` insertion/replacement becomes
  `insertAt` / `take ++ _ ++ drop`; `findIndex` (with its `-1` result)
  becomes `findIndexOf` (an `Option Nat` result).
* JS string operations (`slice`, `trim`, `length`) map to the
  character-list models `strTake` / `strDrop` / `strTrim` / `strLength`
  (character counting; the scripts in scope contain no surrogate pairs,
  where JS `.length` would differ, and whitespace is the ASCII class).
-/

namespace Bubblebeats

/-- Bubble kind, from `src/types/script.ts` (`'text' | 'filler'`). -/
inductive BubbleType where
  | text
  | filler
  deriving DecidableEq, Repr

/-- One segment of content on one track, from `src/types/script.ts`. -/
structure Bubble where
  id : Nat
  type : BubbleType
  content : String
  durationSeconds : ℚ
  manualDuration : Option Bool := none
  deriving DecidableEq, Repr

/-- The atomic row of the timeline, from `src/types/script.ts`. -/
structure BubblePair where
  id : Nat
  text : Bubble
  visual : Bubble
  visualSpan : Option Int := none
  deriving DecidableEq, Repr

/-- The whole document, from `src/types/script.ts`. -/
structure Script where
  title : String
  totalDurationSeconds : ℚ
  pairs : List BubblePair
  deriving DecidableEq, Repr

/-- Placeholder bubble used as the default of total lookup functions. -/
def dfltBubble : Bubble :=
  { id := 0, type := .text, content := "", durationSeconds := 0, manualDuration := none }

/-- Placeholder pair used as the default of total lookup functions. -/
def dfltPair : BubblePair :=
  { id := 0, text := dfltBubble, visual := dfltBubble, visualSpan := none }

/-! ### Character-list models of the JS string operations -/

/-- JS `s.slice(0, n)` for a non-negative cursor offset. -/
def strTake (s : String) (n : Nat) : String := ⟨s.data.take n⟩

/-- JS `s.slice(n)` for a non-negative cursor offset. -/
def strDrop (s : String) (n : Nat) : String := ⟨s.data.drop n⟩

/-- Strip leading and trailing whitespace from a character list. -/
def trimChars (l : List Char) : List Char :=
  ((l.dropWhile Char.isWhitespace).reverse.dropWhile Char.isWhitespace).reverse

/-- JS `s.trim()`. -/
def strTrim (s : String) : String := ⟨trimChars s.data⟩

/-- JS `s.length` (character count). -/
def strLength (s : String) : Nat := s.data.length

/-! ### Timing engine, from `src/utils/timing.ts` -/

/-- `WORDS_PER_MINUTE` constant from `src/utils/timing.ts`. -/
def WORDS_PER_MINUTE : ℚ := 150

/-- `countWords` from `src/utils/timing.ts`: after trimming, the number of
`\s+`-separated fragments, i.e. the number of maximal runs of
non-whitespace characters; empty/whitespace-only text yields 0. -/
def countWords (text : String) : Nat :=
  (text.data.foldl
    (fun acc c =>
      if c.isWhitespace then (acc.1, false)
      else if acc.2 then acc else (acc.1 + 1, true))
    ((0 : Nat), false)).1

/-- `estimateDuration` from `src/utils/timing.ts`. -/
def estimateDuration (text : String) : ℚ :=
  ((countWords text : ℚ) / WORDS_PER_MINUTE) * 60

/-- JS `Math.trunc`-style integer part (what `%` uses). -/
def jsTrunc (q : ℚ) : Int := if 0 ≤ q then ⌊q⌋ else ⌈q⌉

/-- JS remainder `a % b` (truncated division remainder). -/
def jsMod (a b : ℚ) : ℚ := a - b * (jsTrunc (a / b) : ℚ)

/-- JS `Math.floor`. -/
def jsFloor (q : ℚ) : Int := ⌊q⌋

/-- JS `Math.round` (round half towards positive infinity). -/
def jsRound (q : ℚ) : Int := ⌊q + 1/2⌋

/-- JS `String.prototype.padStart(2, '0')`. -/
def padStart2 (s : String) : String :=
  if strLength s < 2 then String.mk (List.replicate (2 - strLength s) '0') ++ s else s

/-- The seconds field of `formatTime`: `Math.round(seconds % 60)`. -/
def secondsField (seconds : ℚ) : Int := jsRound (jsMod seconds 60)

/-- `formatTime` from `src/utils/timing.ts`:
`` `${Math.floor(seconds / 60)}:${Math.round(seconds % 60).toString().padStart(2, '0')}` ``. -/
def formatTime (seconds : ℚ) : String :=
  let m := jsFloor (seconds / 60)
  let s := secondsField seconds
  toString m ++ ":" ++ padStart2 (toString s)

/-! ### Bubble constructors, from `src/hooks/useScript.ts` -/

/-- `createTextBubble` (id supplied by the caller's id counter). -/
def createTextBubble (id : Nat) (content : String) : Bubble :=
  { id := id, type := .text, content := content,
    durationSeconds := max (estimateDuration content) (1/2), manualDuration := none }

/-- `createFillerBubble` (default duration 1 second). -/
def createFillerBubble (id : Nat) (duration : ℚ := 1) : Bubble :=
  { id := id, type := .filler, content := "",
    durationSeconds := duration, manualDuration := some true }

/-- `createVisualBubble`. -/
def createVisualBubble (id : Nat) (content : String) : Bubble :=
  { id := id, type := .text, content := content,
    durationSeconds := 0, manualDuration := none }

/-- `createPair`: allocates three ids `g`, `g+1`, `g+2` in source order. -/
def createPair (g : Nat) (text visual : String) : BubblePair :=
  { id := g, text := createTextBubble (g+1) text,
    visual := createVisualBubble (g+2) visual, visualSpan := none }

/-! ### Small helpers shared by the mutators -/

/-- JS `[a, b].filter(Boolean).join('\n')`. -/
def joinNonEmpty (a b : String) : String :=
  if a = "" then b else if b = "" then a else a ++ "\n" ++ b

/-- JS `x ?? 1` on an optional span (`some 0` stays `0`). -/
def orOne (o : Option Int) : Int := o.getD 1

/-- JS `Array.prototype.findIndex`, with `none` for the `-1` result. -/
def findIndexOf {α : Type} (p : α → Bool) : List α → Option Nat
  | [] => none
  | a :: as => if p a then some 0 else (findIndexOf p as).map (· + 1)

/-- Insert at an index, clamped to the end, like `splice(n, 0, a)`. -/
def insertAt {α : Type} (n : Nat) (a : α) : List α → List α
  | [] => [a]
  | x :: xs =>
    match n with
    | 0 => a :: x :: xs
    | m + 1 => x :: insertAt m a xs

/-- `Array.prototype.map((p, i) => ...)`, with an explicit start index. -/
def mapIdxFrom {α β : Type} (f : Nat → α → β) : Nat → List α → List β
  | _, [] => []
  | i, a :: as => f i a :: mapIdxFrom f (i+1) as

/-- The visual span of the row at an index (default pair outside range). -/
def spanAt (s : Script) (i : Nat) : Option Int :=
  (s.pairs.getD i dfltPair).visualSpan

/-- The walk-up loop shared by `mergeVisualUp`, `splitVisualSpan` and
`insertFiller`: starting at an index, step backwards while the row has
`visualSpan === 0`, stopping at index 0 at the latest. -/
def findOwner (s : Script) : Nat → Nat
  | 0 => 0
  | j + 1 => if spanAt s (j+1) = some 0 then findOwner s j else j + 1

/-! ### Document mutators, from `src/hooks/useScript.ts` -/

/-- `commitPairText`: recompute the spoken duration from content on the
addressed pair unless its duration was manually pinned. -/
def commitPairText (pairId : Nat) (s : Script) : Script :=
  { s with pairs := s.pairs.map (fun p =>
      if p.id = pairId ∧ ¬ (p.text.manualDuration = some true) then
        { p with text := { p.text with
            durationSeconds := max (estimateDuration p.text.content) (1/2) } }
      else p) }

/-- The two sides of a row (`'text' | 'visual'`). -/
inductive Side where
  | text
  | visual
  deriving DecidableEq, Repr

/-- `updateBubbleDuration`: drag-resize; clamps to a side-specific minimum
(1s for the spoken side of a filler, 0.5s otherwise) and pins the value. -/
def updateBubbleDuration (pairId : Nat) (side : Side) (durationSeconds : ℚ)
    (s : Script) : Script :=
  { s with pairs := s.pairs.map (fun p =>
      if p.id = pairId then
        let minDur : ℚ := if p.text.type = .filler ∧ side = .text then 1 else 1/2
        match side with
        | .text => { p with text := { p.text with
            durationSeconds := max minDur durationSeconds, manualDuration := some true } }
        | .visual => { p with visual := { p.visual with
            durationSeconds := max minDur durationSeconds, manualDuration := some true } }
      else p) }

/-- `splitBubble`: split a row at a character offset of its spoken text.
`charOffset` is a cursor position (non-negative).  The `||` fallbacks of
the source are the two `if _ = ""` choices (`visualAfter || ''` is just
`visualAfter`). -/
def splitBubble (pairId : Nat) (charOffset : Nat) (s : Script) (g : Nat) :
    Script × Nat :=
  match findIndexOf (fun p => p.id = pairId) s.pairs with
  | none => (s, g)
  | some idx =>
    let pair := s.pairs.getD idx dfltPair
    let textBefore := strTrim (strTake pair.text.content charOffset)
    let textAfter := strTrim (strDrop pair.text.content charOffset)
    if textBefore = "" ∨ textAfter = "" then (s, g)
    else
      let ratio : ℚ := (charOffset : ℚ) / (strLength pair.text.content : ℚ)
      let visualSplitPos := (jsRound ((strLength pair.visual.content : ℚ) * ratio)).toNat
      let visualBefore := strTrim (strTake pair.visual.content visualSplitPos)
      let visualAfter := strTrim (strDrop pair.visual.content visualSplitPos)
      let newPair1 := createPair g textBefore
        (if visualBefore = "" then pair.visual.content else visualBefore)
      let newPair2 := createPair (g+3) textAfter visualAfter
      ({ s with pairs :=
          s.pairs.take idx ++ [newPair1, newPair2] ++ s.pairs.drop (idx+1) }, g+6)

/-- `insertFiller`: insert a pause row at an index; if the target row is
covered by a visual span (`visualSpan === 0`) the span is split first so
the pause gets its own visual cell.  (When the target is covered the
source reads `pairs[atIndex - 1]`; at `atIndex = 0` that would throw in
JS, so theorems about this operation assume a well-formed document, where
row 0 is never covered.) -/
def insertFiller (atIndex : Nat) (s : Script) (g : Nat) : Script × Nat :=
  if atIndex < s.pairs.length ∧ spanAt s atIndex = some 0 then
    let ownerIdx := findOwner s (atIndex - 1)
    let ownerSpan := orOne (spanAt s ownerIdx)
    let spanBefore : Int := (atIndex : Int) - (ownerIdx : Int)
    let spanAfter := ownerSpan - spanBefore
    let ps1 := s.pairs.set ownerIdx
      { s.pairs.getD ownerIdx dfltPair with
        visualSpan := if spanBefore = 1 then none else some spanBefore }
    let ps2 := ps1.set atIndex
      { ps1.getD atIndex dfltPair with
        visual := createVisualBubble g "",
        visualSpan := if spanAfter = 1 then none else some spanAfter }
    let fillerPair : BubblePair :=
      { id := g+1, text := createFillerBubble (g+2),
        visual := createVisualBubble (g+3) "", visualSpan := none }
    ({ s with pairs := insertAt atIndex fillerPair ps2 }, g+4)
  else
    let fillerPair : BubblePair :=
      { id := g, text := createFillerBubble (g+1),
        visual := createVisualBubble (g+2) "", visualSpan := none }
    ({ s with pairs := insertAt atIndex fillerPair s.pairs }, g+3)

/-- `mergePairUp`: merge the addressed row into the row above it. -/
def mergePairUp (pairId : Nat) (s : Script) : Script :=
  match findIndexOf (fun p => p.id = pairId) s.pairs with
  | none => s
  | some idx =>
    if idx = 0 then s
    else
      let above := s.pairs.getD (idx-1) dfltPair
      let current := s.pairs.getD idx dfltPair
      let mergedTextContent := joinNonEmpty above.text.content current.text.content
      let mergedVisualContent := joinNonEmpty above.visual.content current.visual.content
      let rawSpan : Int := orOne above.visualSpan + orOne current.visualSpan - 1
      let mergedPair : BubblePair :=
        { above with
          text := { above.text with
                    content := mergedTextContent
                    durationSeconds := max (estimateDuration mergedTextContent) (1/2)
                    manualDuration := none }
          visual := { above.visual with content := mergedVisualContent }
          visualSpan := if rawSpan = 1 then none else some rawSpan }
      { s with pairs := s.pairs.take (idx-1) ++ [mergedPair] ++ s.pairs.drop (idx+1) }

/-- `mergePairDown`: merge the row below into the addressed row. -/
def mergePairDown (pairId : Nat) (s : Script) : Script :=
  match findIndexOf (fun p => p.id = pairId) s.pairs with
  | none => s
  | some idx =>
    if idx + 1 ≥ s.pairs.length then s
    else
      let current := s.pairs.getD idx dfltPair
      let below := s.pairs.getD (idx+1) dfltPair
      let mergedTextContent := joinNonEmpty current.text.content below.text.content
      let mergedVisualContent := joinNonEmpty current.visual.content below.visual.content
      let rawSpan : Int := orOne current.visualSpan + orOne below.visualSpan - 1
      let mergedPair : BubblePair :=
        { current with
          text := { current.text with
                    content := mergedTextContent
                    durationSeconds := max (estimateDuration mergedTextContent) (1/2)
                    manualDuration := none }
          visual := { current.visual with content := mergedVisualContent }
          visualSpan := if rawSpan = 1 then none else some rawSpan }
      { s with pairs := s.pairs.take idx ++ [mergedPair] ++ s.pairs.drop (idx+2) }

/-- `mergeVisualUp`: visual-track-only merge of the addressed row into the
owner of the span above it (found by the walk-up loop). -/
def mergeVisualUp (pairId : Nat) (s : Script) : Script :=
  match findIndexOf (fun p => p.id = pairId) s.pairs with
  | none => s
  | some idx =>
    if idx = 0 then s
    else
      let ownerIdx := findOwner s (idx - 1)
      let owner := s.pairs.getD ownerIdx dfltPair
      let current := s.pairs.getD idx dfltPair
      let mergedVisualContent := joinNonEmpty owner.visual.content current.visual.content
      { s with pairs := mapIdxFrom (fun i p =>
          if i = ownerIdx then
            { p with
              visual := { p.visual with content := mergedVisualContent }
              visualSpan := some (orOne owner.visualSpan + orOne current.visualSpan) }
          else if i = idx then { p with visualSpan := some 0 }
          else p) 0 s.pairs }

/-- `mergeVisualDown`: visual-track-only merge of the row below into the
addressed row. -/
def mergeVisualDown (pairId : Nat) (s : Script) : Script :=
  match findIndexOf (fun p => p.id = pairId) s.pairs with
  | none => s
  | some idx =>
    if idx + 1 ≥ s.pairs.length then s
    else
      let current := s.pairs.getD idx dfltPair
      let below := s.pairs.getD (idx+1) dfltPair
      let mergedVisualContent := joinNonEmpty current.visual.content below.visual.content
      { s with pairs := mapIdxFrom (fun i p =>
          if i = idx then
            { p with
              visual := { p.visual with content := mergedVisualContent }
              visualSpan := some (orOne current.visualSpan + orOne below.visualSpan) }
          else if i = idx + 1 then { p with visualSpan := some 0 }
          else p) 0 s.pairs }

/-- `splitVisualSpan`: break the span covering the row at `atPairIndex`
into two independent spans.  (As with `insertFiller`, the source would
throw at `atPairIndex = 0` on a covered row 0; theorems assume a
well-formed document, where that cannot happen.) -/
def splitVisualSpan (atPairIndex : Nat) (s : Script) (g : Nat) : Script × Nat :=
  match s.pairs[atPairIndex]? with
  | none => (s, g)
  | some pair =>
    if pair.visualSpan ≠ some 0 then (s, g)
    else
      let ownerIdx := findOwner s (atPairIndex - 1)
      let ownerSpan := orOne (spanAt s ownerIdx)
      let spanBefore : Int := (atPairIndex : Int) - (ownerIdx : Int)
      let spanAfter := ownerSpan - spanBefore
      ({ s with pairs := mapIdxFrom (fun i p =>
          if i = ownerIdx then
            { p with visualSpan := if spanBefore = 1 then none else some spanBefore }
          else if i = atPairIndex then
            { p with
              visual := createVisualBubble g ""
              visualSpan := if spanAfter = 1 then none else some spanAfter }
          else p) 0 s.pairs }, g + 1)

/-! ### Layout scale and edit-mode coordinator, from
`src/components/BubbleTimeline.tsx` -/

/-- `fitScale` (lines 103–105): the scale at which the natural content
height fits the container. -/
def fitScale (naturalHeight containerHeight : ℚ) : ℚ :=
  if naturalHeight > containerHeight ∧ containerHeight > 0 then
    containerHeight / naturalHeight
  else 1

/-- `scale` (lines 107–109): interpolation between natural size and fit,
driven by the zoom setting. -/
def appliedScale (zoom fitS : ℚ) : ℚ :=
  if fitS < 1 then 1 + zoom * (fitS - 1) else 1

/-- `enterEditMode` (lines 112–120) combined with the `onCommitText`
callback it fires: given the current `editingPairId` state and the
document, returns the new state and the document after the flush commit.
The coordinator state is the single nullable value `editingPairId`. -/
def enterEditMode (pairId : Nat) (st : Option Nat) (doc : Script) :
    Option Nat × Script :=
  match st with
  | some otherId =>
    if otherId ≠ pairId then (some pairId, commitPairText otherId doc)
    else (some pairId, doc)
  | none => (some pairId, doc)

/-! ### The visual-span coverage invariant (from the spec, §3/§8) -/

/-- Helper for `coversOk`: `pending` is the number of still-expected
covered (`visualSpan = 0`) rows of the current span. -/
def coversOkAux : List (Option Int) → Nat → Bool
  | [], 0 => true
  | [], _ + 1 => false
  | s :: rest, 0 =>
    match s with
    | none => coversOkAux rest 0
    | some n => if 0 < n then coversOkAux rest (n.toNat - 1) else false
  | s :: rest, k + 1 => if s = some 0 then coversOkAux rest k else false

/-- The visual-span coverage invariant on a list of spans: every
`visualSpan = 0` row is covered, without gap, by the nearest preceding
owner, and each owner's span equals 1 plus the number of contiguous
following covered rows. -/
def coversOk (l : List (Option Int)) : Bool := coversOkAux l 0

/-- The span list of a document. -/
def spanList (s : Script) : List (Option Int) := s.pairs.map (·.visualSpan)

/-- The visual-span coverage invariant of a document. -/
def VisualInv (s : Script) : Prop := coversOk (spanList s) = true

/-- A legal block head: either a plain row (`none`, covering nothing) or
an owner `some (k+1)` covering the next `k` rows. -/
def IsBlockHead (h : Option Int) (k : Nat) : Prop :=
  (h = none ∧ k = 0) ∨ h = some ((k : Int) + 1)

/-- Structured form of the coverage invariant: the span list is a
concatenation of blocks, each a head followed by exactly the covered
`some 0` rows it owns. -/
inductive Blocks : List (Option Int) → Prop where
  | nil : Blocks []
  | cons (h : Option Int) (k : Nat) (rest : List (Option Int)) :
      IsBlockHead h k → Blocks rest →
      Blocks (h :: (List.replicate k (some 0) ++ rest))

instance (s : Script) : Decidable (VisualInv s) := by
  unfold VisualInv; infer_instance

/-! ### Concrete example documents (used by witnesses and counterexamples) -/

/-- A row with given id and visual span, empty contents. -/
def exPair (pid : Nat) (sp : Option Int) : BubblePair :=
  { id := pid, text := createTextBubble (pid*10+1) "",
    visual := createVisualBubble (pid*10+2) "", visualSpan := sp }

/-- Three rows: a span of 2 covering the second row, then a plain row. -/
def exScript3 : Script :=
  { title := "t", totalDurationSeconds := 120,
    pairs := [exPair 1 (some 2), exPair 2 (some 0), exPair 3 none] }

/-- Two rows: a span of 2 covering the second row. -/
def exScript2 : Script :=
  { title := "t", totalDurationSeconds := 120,
    pairs := [exPair 1 (some 2), exPair 2 (some 0)] }

/-- A single row with spoken text `"Hello world"` and visual `"V"`. -/
def exHello : Script :=
  { title := "t", totalDurationSeconds := 120,
    pairs := [{ id := 0, text := createTextBubble 1 "Hello world",
                visual := createVisualBubble 2 "V", visualSpan := none }] }

/-- A single row whose visual content has leading whitespace (`" x"`). -/
def exPadded : Script :=
  { title := "t", totalDurationSeconds := 120,
    pairs := [{ id := 0, text := createTextBubble 1 "abcdef ghi",
                visual := createVisualBubble 2 " x", visualSpan := none }] }

/-- A single pause row (filler spoken bubble). -/
def exPause : Script :=
  { title := "t", totalDurationSeconds := 120,
    pairs := [{ id := 7, text := createFillerBubble 8,
                visual := createVisualBubble 9 "", visualSpan := none }] }

/-- The effectiveness condition of `splitBubble`, as the spec states it: a
pair with the id exists, and both `content.slice(0, charOffset).trim()`
and `content.slice(charOffset).trim()` are non-empty. -/
def effectiveSplit (s : Script) (pairId : Nat) (charOffset : Nat) : Prop :=
  match findIndexOf (fun p => p.id = pairId) s.pairs with
  | none => False
  | some idx =>
    (strTrim (strTake (s.pairs.getD idx dfltPair).text.content charOffset) ≠ "") ∧
    (strTrim (strDrop (s.pairs.getD idx dfltPair).text.content charOffset) ≠ "")

instance (s : Script) (pairId charOffset : Nat) :
    Decidable (effectiveSplit s pairId charOffset) := by
  unfold effectiveSplit
  cases findIndexOf (fun p => p.id = pairId) s.pairs with
  | none => exact inferInstance
  | some idx => exact inferInstance

/-- The proportional visual split position of `splitBubble`:
`Math.round(visual.length * (charOffset / text.length))`. -/
def visualSplitPosOf (pair : BubblePair) (charOffset : Nat) : Nat :=
  (jsRound ((strLength pair.visual.content : ℚ) *
    ((charOffset : ℚ) / (strLength pair.text.content : ℚ)))).toNat

/-- The two rows produced by an effective `splitBubble` on a pair: spoken
text split and trimmed at `charOffset`, visual content split and trimmed
at the proportional position (with the source's `||` fallbacks), ids
allocated from `g`. -/
def splitRows (pair : BubblePair) (charOffset g : Nat) : List BubblePair :=
  [createPair g (strTrim (strTake pair.text.content charOffset))
     (if (strTrim (strTake pair.visual.content (visualSplitPosOf pair charOffset))) = ""
      then pair.visual.content
      else (strTrim (strTake pair.visual.content (visualSplitPosOf pair charOffset)))),
   createPair (g+3) (strTrim (strDrop pair.text.content charOffset))
     (strTrim (strDrop pair.visual.content (visualSplitPosOf pair charOffset)))]

/-- The merged row produced by `mergePairUp`/`mergePairDown` (spec §4.2):
non-empty contents joined by a newline, re-estimated spoken duration with
`manualDuration` cleared, and the two rows' `visualSpan` contributions
summed (`(a ?? 1) + (b ?? 1) - 1`, normalized to `undefined` at `1`). -/
def mergedPairOf (upper lower : BubblePair) : BubblePair :=
  { upper with
    text := { upper.text with
      content := joinNonEmpty upper.text.content lower.text.content
      durationSeconds := max (estimateDuration (joinNonEmpty upper.text.content lower.text.content)) (1/2)
      manualDuration := none }
    visual := { upper.visual with
      content := joinNonEmpty upper.visual.content lower.visual.content }
    visualSpan :=
      if orOne upper.visualSpan + orOne lower.visualSpan - 1 = 1 then none
      else some (orOne upper.visualSpan + orOne lower.visualSpan - 1) }

/-- The side-specific minimum of `updateBubbleDuration`: 1 second on the
spoken side of a filler row, 0.5 seconds otherwise. -/
def sideMin (p : BubblePair) (side : Side) : ℚ :=
  if p.text.type = .filler ∧ side = .text then 1 else 1/2

/-- The row `updateBubbleDuration` stores for the addressed pair: the
chosen side gets the clamped duration and a pinned `manualDuration`. -/
def updatedPair (p : BubblePair) (side : Side) (d : ℚ) : BubblePair :=
  match side with
  | .text => { p with text := { p.text with
      durationSeconds := max (sideMin p side) d, manualDuration := some true } }
  | .visual => { p with visual := { p.visual with
      durationSeconds := max (sideMin p side) d, manualDuration := some true } }

/-- Projection of a row's duration on one side. -/
def sideDur (p : BubblePair) (side : Side) : ℚ :=
  match side with
  | .text => p.text.durationSeconds
  | .visual => p.visual.durationSeconds

/-- The row `commitPairText` stores for an addressed pair whose duration
is not pinned: the spoken duration re-estimated from the content. -/
def committedPair (p : BubblePair) : BubblePair :=
  { p with text := { p.text with
      durationSeconds := max (estimateDuration p.text.content) (1/2) } }

/-! ## List bookkeeping lemmas -/

section ListLemmas

variable {α β : Type}

theorem getD_append_left (A B : List α) (j : Nat) (d : α) (h : j < A.length) :
    (A ++ B).getD j d = A.getD j d := by
  induction A generalizing j with
  | nil => simp at h
  | cons a as ih =>
    cases j with
    | zero => simp
    | succ m =>
      simp only [List.cons_append, List.getD_cons_succ]
      exact ih m (by simpa using h)

theorem getD_append_right (A B : List α) (j : Nat) (d : α) :
    (A ++ B).getD (A.length + j) d = B.getD j d := by
  induction A with
  | nil => simp
  | cons a as ih =>
    have : as.length + 1 + j = (as.length + j) + 1 := by omega
    simp only [List.cons_append, List.length_cons, this, List.getD_cons_succ]
    exact ih

theorem getD_at_append (A : List α) (x : α) (B : List α) (d : α) :
    (A ++ x :: B).getD A.length d = x := by
  have := getD_append_right A (x :: B) 0 d
  simpa using this

theorem getD_replicate (k j : Nat) (x d : α) (h : j < k) :
    (List.replicate k x).getD j d = x := by
  induction k generalizing j with
  | zero => omega
  | succ m ih =>
    cases j with
    | zero => simp [List.replicate_succ]
    | succ i =>
      simp only [List.replicate_succ, List.getD_cons_succ]
      exact ih i (by omega)

theorem getD_map (f : α → β) (l : List α) (j : Nat) (d : α) :
    (l.map f).getD j (f d) = f (l.getD j d) := by
  induction l generalizing j with
  | nil => simp
  | cons a as ih =>
    cases j with
    | zero => simp
    | succ m => simp [ih m]

theorem insertAt_append (A : List α) (x : α) (B : List α) :
    insertAt A.length x (A ++ B) = A ++ x :: B := by
  induction A with
  | nil => cases B <;> simp [insertAt]
  | cons a as ih => simpa [insertAt] using ih

theorem insertAt_ge (n : Nat) (x : α) (l : List α) (h : l.length ≤ n) :
    insertAt n x l = l ++ [x] := by
  induction l generalizing n with
  | nil => simp [insertAt]
  | cons a as ih =>
    cases n with
    | zero => simp at h
    | succ m => simp [insertAt, ih m (by simpa using h)]

theorem set_at_append (A : List α) (x : α) (B : List α) (v : α) :
    (A ++ x :: B).set A.length v = A ++ v :: B := by
  induction A with
  | nil => simp
  | cons a as ih => simp [List.set, ih]

theorem mapIdxFrom_append (f : Nat → α → β) (n : Nat) (A B : List α) :
    mapIdxFrom f n (A ++ B) = mapIdxFrom f n A ++ mapIdxFrom f (n + A.length) B := by
  induction A generalizing n with
  | nil => simp [mapIdxFrom]
  | cons a as ih =>
    have h1 : n + (as.length + 1) = (n + 1) + as.length := by omega
    simp only [List.cons_append, List.append_eq, mapIdxFrom, List.length_cons, h1, ih]

theorem mapIdxFrom_id (f : Nat → α → α) (n : Nat) (l : List α)
    (h : ∀ i x, n ≤ i → i < n + l.length → f i x = x) :
    mapIdxFrom f n l = l := by
  induction l generalizing n with
  | nil => simp [mapIdxFrom]
  | cons a as ih =>
    simp only [mapIdxFrom]
    have ha : f n a = a := h n a (Nat.le_refl n) (by simp)
    have hrest : mapIdxFrom f (n+1) as = as :=
      ih (n+1) (fun i x h1 h2 =>
        h i x (by omega) (by simp only [List.length_cons]; omega))
    rw [ha, hrest]

theorem mapIdxFrom_two_point (F : Nat → α → α) (A : List α) (x : α)
    (M : List α) (y : α) (R : List α) (a b : Nat)
    (ha : a = A.length) (hb : b = A.length + 1 + M.length)
    (hout : ∀ i z, i ≠ a → i ≠ b → F i z = z) :
    mapIdxFrom F 0 (A ++ x :: (M ++ y :: R)) =
      A ++ F a x :: (M ++ F b y :: R) := by
  subst ha
  subst hb
  have hA : mapIdxFrom F 0 A = A := by
    apply mapIdxFrom_id
    intro i z h1 h2
    exact hout i z (by omega) (by omega)
  have hM : mapIdxFrom F (A.length + 1) M = M := by
    apply mapIdxFrom_id
    intro i z h1 h2
    exact hout i z (by omega) (by omega)
  have hR : mapIdxFrom F (A.length + 1 + M.length + 1) R = R := by
    apply mapIdxFrom_id
    intro i z h1 h2
    exact hout i z (by omega) (by omega)
  rw [mapIdxFrom_append, hA]
  simp only [Nat.zero_add, mapIdxFrom]
  rw [mapIdxFrom_append, hM]
  simp only [mapIdxFrom]
  rw [hR]

theorem mapIdxFrom_two_point_vals (F : Nat → α → α) (A : List α) (x : α)
    (M : List α) (y : α) (R : List α) (a b : Nat)
    (ha : a = A.length) (hb : b = A.length + 1 + M.length)
    (hout : ∀ i z, i ≠ a → i ≠ b → F i z = z)
    (x' y' : α) (hx : F a x = x') (hy : F b y = y') :
    mapIdxFrom F 0 (A ++ x :: (M ++ y :: R)) =
      A ++ x' :: (M ++ y' :: R) := by
  rw [mapIdxFrom_two_point F A x M y R a b ha hb hout, hx, hy]

theorem map_eq_append_inv (f : α → β) (l : List α) (A B : List β)
    (h : l.map f = A ++ B) :
    ∃ A' B', l = A' ++ B' ∧ A'.map f = A ∧ B'.map f = B := by
  induction A generalizing l with
  | nil =>
    refine ⟨[], l, by simp, by simp, ?_⟩
    simpa using h
  | cons a as ih =>
    cases l with
    | nil => simp at h
    | cons x xs =>
      simp only [List.map_cons, List.cons_append, List.cons.injEq] at h
      obtain ⟨hx, hxs⟩ := h
      obtain ⟨A', B', h1, h2, h3⟩ := ih xs hxs
      exact ⟨x :: A', B', by simp [h1], by simp [hx, h2], h3⟩

theorem map_eq_cons_inv (f : α → β) (l : List α) (a : β) (B : List β)
    (h : l.map f = a :: B) :
    ∃ x B', l = x :: B' ∧ f x = a ∧ B'.map f = B := by
  cases l with
  | nil => simp at h
  | cons x xs =>
    simp only [List.map_cons, List.cons.injEq] at h
    exact ⟨x, xs, rfl, h.1, h.2⟩

theorem map_eq_replicate_all (f : α → β) (l : List α) (k : Nat) (c : β)
    (h : l.map f = List.replicate k c) :
    l.length = k ∧ ∀ x ∈ l, f x = c := by
  constructor
  · have := congrArg List.length h
    simpa using this
  · intro x hx
    have : f x ∈ l.map f := List.mem_map_of_mem f hx
    rw [h] at this
    exact List.eq_of_mem_replicate this

theorem map_eq_replicate_of (f : α → β) (l : List α) (c : β)
    (h : ∀ x ∈ l, f x = c) :
    l.map f = List.replicate l.length c := by
  induction l with
  | nil => simp
  | cons a as ih =>
    simp only [List.map_cons, List.length_cons, List.replicate_succ]
    rw [h a (by simp), ih (fun x hx => h x (by simp [hx]))]

theorem replicate_merge (a b : Nat) (c : α) :
    List.replicate a c ++ c :: List.replicate b c = List.replicate (a + 1 + b) c := by
  have h1 : c :: List.replicate b c = List.replicate (b + 1) c := by
    simp [List.replicate_succ]
  rw [h1, ← List.replicate_add]
  congr 1
  omega

theorem split_at_index (l : List α) (j : Nat) (h : j < l.length) :
    ∃ A x B, l = A ++ x :: B ∧ A.length = j := by
  refine ⟨l.take j, l[j], l.drop (j+1), ?_, by simp; omega⟩
  conv_lhs => rw [← List.take_append_drop j l]
  rw [List.drop_eq_getElem_cons h]

theorem getD_snd_append (A : List α) (x y : α) (B : List α) (d : α) :
    (A ++ x :: y :: B).getD (A.length + 1) d = y := by
  have := getD_append_right A (x :: y :: B) 1 d
  simpa using this

theorem getD_at_append' (A : List α) (x : α) (B : List α) (d : α) (j : Nat)
    (hj : j = A.length) : (A ++ x :: B).getD j d = x := by
  subst hj
  exact getD_at_append A x B d

theorem getD_snd_append' (A : List α) (x y : α) (B : List α) (d : α) (j : Nat)
    (hj : j = A.length + 1) : (A ++ x :: y :: B).getD j d = y := by
  subst hj
  exact getD_snd_append A x y B d

theorem getD_map_lt (f : α → β) (l : List α) (i : Nat) (d : β) (d' : α)
    (h : i < l.length) :
    (l.map f).getD i d = f (l.getD i d') := by
  rw [List.getD_eq_getElem _ _ (by simpa using h), List.getD_eq_getElem _ _ h,
    List.getElem_map]

theorem insertAt_length (n : Nat) (x : α) (l : List α) :
    (insertAt n x l).length = l.length + 1 := by
  induction l generalizing n with
  | nil => simp [insertAt]
  | cons a as ih =>
    cases n with
    | zero => simp [insertAt]
    | succ m => simp [insertAt, ih]

theorem getD_insertAt_lt (n : Nat) (x : α) (l : List α) (j : Nat) (d : α)
    (hj : j < n) (hn : n ≤ l.length) :
    (insertAt n x l).getD j d = l.getD j d := by
  induction l generalizing n j with
  | nil => simp at hn; omega
  | cons a as ih =>
    cases n with
    | zero => omega
    | succ m =>
      cases j with
      | zero => simp [insertAt]
      | succ i =>
        simp only [insertAt, List.getD_cons_succ]
        exact ih m i (by omega) (by simpa using hn)

theorem getD_insertAt_ge (n : Nat) (x : α) (l : List α) (j : Nat) (d : α)
    (hj : n ≤ j) :
    (insertAt n x l).getD (j + 1) d = l.getD j d := by
  induction l generalizing n j with
  | nil => cases n <;> simp [insertAt]
  | cons a as ih =>
    cases n with
    | zero => simp [insertAt]
    | succ m =>
      cases j with
      | zero => omega
      | succ i =>
        simp only [insertAt, List.getD_cons_succ]
        exact ih m i (by omega)

theorem getD_insertAt_self (n : Nat) (x : α) (l : List α) (d : α)
    (hn : n ≤ l.length) :
    (insertAt n x l).getD n d = x := by
  induction l generalizing n with
  | nil =>
    have : n = 0 := by simpa using hn
    simp [this, insertAt]
  | cons a as ih =>
    cases n with
    | zero => simp [insertAt]
    | succ m =>
      simp only [insertAt, List.getD_cons_succ]
      exact ih m (by simpa using hn)

theorem getD_set_ne (l : List α) (i j : Nat) (v d : α) (h : i ≠ j) :
    (l.set i v).getD j d = l.getD j d := by
  induction l generalizing i j with
  | nil => simp
  | cons a as ih =>
    cases i with
    | zero =>
      cases j with
      | zero => omega
      | succ jj => simp [List.set]
    | succ ii =>
      cases j with
      | zero => simp [List.set]
      | succ jj =>
        simp only [List.set, List.getD_cons_succ]
        exact ih ii jj (by omega)

theorem getD_set_self (l : List α) (i : Nat) (v d : α) (h : i < l.length) :
    (l.set i v).getD i d = v := by
  induction l generalizing i with
  | nil => simp at h
  | cons a as ih =>
    cases i with
    | zero => simp [List.set]
    | succ ii =>
      simp only [List.set, List.getD_cons_succ]
      exact ih ii (by simpa using h)

end ListLemmas

/-! ## Structure of the coverage invariant -/

theorem isBlockHead_ne_zero {h : Option Int} {k : Nat} (hb : IsBlockHead h k) :
    h ≠ some 0 := by
  rcases hb with ⟨h1, _⟩ | h1 <;> simp [h1]
  omega

theorem isBlockHead_orOne {h : Option Int} {k : Nat} (hb : IsBlockHead h k) :
    orOne h = (k : Int) + 1 := by
  rcases hb with ⟨h1, h2⟩ | h1
  · simp [h1, h2, orOne]
  · simp [h1, orOne]

theorem isBlockHead_of_pos {h : Option Int} {k : Nat} (hb : IsBlockHead h k)
    (hk : 1 ≤ k) : h = some ((k : Int) + 1) := by
  rcases hb with ⟨_, h2⟩ | h1
  · omega
  · exact h1

theorem coversOkAux_replicate_append (k : Nat) (rest : List (Option Int)) :
    coversOkAux (List.replicate k (some 0) ++ rest) k = coversOkAux rest 0 := by
  induction k with
  | zero => simp
  | succ m ih => simpa [List.replicate_succ, coversOkAux] using ih

theorem blocks_coversOk {l : List (Option Int)} (hb : Blocks l) :
    coversOk l = true := by
  induction hb with
  | nil => rfl
  | cons h k rest hh _ ih =>
    rcases hh with ⟨h1, h2⟩ | h1
    · subst h1; subst h2
      simpa [coversOk, coversOkAux] using ih
    · subst h1
      have hpos : (0 : Int) < (k : Int) + 1 := by omega
      have htn : ((k : Int) + 1).toNat - 1 = k := by omega
      simp only [coversOk, coversOkAux, if_pos hpos, htn]
      simpa [coversOk] using (coversOkAux_replicate_append k rest).trans ih

theorem coversOkAux_zeros_split (k : Nat) (l : List (Option Int))
    (h : coversOkAux l k = true) :
    ∃ l', l = List.replicate k (some 0) ++ l' ∧ coversOkAux l' 0 = true := by
  induction k generalizing l with
  | zero => exact ⟨l, by simp, h⟩
  | succ m ih =>
    cases l with
    | nil => simp [coversOkAux] at h
    | cons s rest =>
      simp only [coversOkAux] at h
      split at h
      · obtain ⟨l', h1, h2⟩ := ih rest h
        refine ⟨l', ?_, h2⟩
        simp_all [List.replicate_succ]
      · simp at h

theorem coversOk_blocks_fuel (n : Nat) :
    ∀ l : List (Option Int), l.length ≤ n → coversOk l = true → Blocks l := by
  induction n with
  | zero =>
    intro l hl _
    cases l with
    | nil => exact Blocks.nil
    | cons a as => simp at hl
  | succ m ih =>
    intro l hl hc
    cases l with
    | nil => exact Blocks.nil
    | cons s rest =>
      cases s with
      | none =>
        simp only [coversOk, coversOkAux] at hc
        have hb : Blocks rest := ih rest (by simp at hl; omega) hc
        have := Blocks.cons none 0 rest (Or.inl ⟨rfl, rfl⟩) hb
        simpa using this
      | some v =>
        simp only [coversOk, coversOkAux] at hc
        split at hc
        · rename_i hv
          obtain ⟨l', h1, h2⟩ := coversOkAux_zeros_split _ _ hc
          have hlen : l'.length ≤ m := by
            have := congrArg List.length h1
            simp at this hl
            omega
          have hb : Blocks l' := ih l' hlen h2
          have hk : v = ((v.toNat - 1 : Nat) : Int) + 1 := by omega
          have := Blocks.cons (some v) (v.toNat - 1) l' (Or.inr (by rw [← hk])) hb
          rw [← h1] at this
          exact this
        · simp at hc

theorem coversOk_blocks {l : List (Option Int)} (hc : coversOk l = true) :
    Blocks l :=
  coversOk_blocks_fuel l.length l (Nat.le_refl _) hc

theorem blocks_append {A B : List (Option Int)} (ha : Blocks A) (hb : Blocks B) :
    Blocks (A ++ B) := by
  induction ha with
  | nil => simpa using hb
  | cons h k rest hh _ ih =>
    have := Blocks.cons h k (rest ++ B) hh ih
    simpa [List.append_assoc] using this

theorem blocks_cons_inv {q : Option Int} {T : List (Option Int)}
    (hb : Blocks (q :: T)) :
    ∃ m T', IsBlockHead q m ∧ T = List.replicate m (some 0) ++ T' ∧ Blocks T' := by
  cases hb with
  | cons h k rest hh hr => exact ⟨k, rest, hh, rfl, hr⟩

theorem blocks_decomp {l : List (Option Int)} (hb : Blocks l) :
    ∀ i, i < l.length →
      ∃ P h k Q, l = P ++ h :: (List.replicate k (some 0) ++ Q) ∧
        Blocks P ∧ IsBlockHead h k ∧ Blocks Q ∧
        P.length ≤ i ∧ i ≤ P.length + k := by
  induction hb with
  | nil => intro i hi; simp at hi
  | cons h k rest hh hr ih =>
    intro i hi
    by_cases hik : i ≤ k
    · exact ⟨[], h, k, rest, by simp, Blocks.nil, hh, hr, by simp, by simp; omega⟩
    · have hi' : i - (k + 1) < rest.length := by
        simp [List.length_append, List.length_replicate] at hi
        omega
      obtain ⟨P', h', k', Q', h1, h2, h3, h4, h5, h6⟩ := ih (i - (k+1)) hi'
      refine ⟨h :: (List.replicate k (some 0) ++ P'), h', k', Q', ?_, ?_, h3, h4, ?_, ?_⟩
      · rw [h1]; simp [List.append_assoc]
      · have := Blocks.cons h k P' hh h2
        exact this
      · simp [List.length_append, List.length_replicate]; omega
      · simp [List.length_append, List.length_replicate]; omega

/-! ## Locating rows and span owners -/

theorem findIndexOf_spec {α : Type} (p : α → Bool) (l : List α) (i : Nat) (d : α)
    (h : findIndexOf p l = some i) :
    i < l.length ∧ p (l.getD i d) = true := by
  induction l generalizing i with
  | nil => simp [findIndexOf] at h
  | cons a as ih =>
    simp only [findIndexOf] at h
    split at h
    · rename_i hp
      injection h with h
      subst h
      exact ⟨by simp, by simpa using hp⟩
    · cases hfa : findIndexOf p as with
      | none => rw [hfa] at h; simp at h
      | some j =>
        rw [hfa] at h
        simp only [Option.map_some'] at h
        injection h with h
        subst h
        obtain ⟨h1, h2⟩ := ih j hfa
        constructor
        · simp only [List.length_cons]; omega
        · simpa [List.getD_cons_succ] using h2

theorem getD_mid {α : Type} (A : List α) (x : α) (M : List α) (y : α)
    (R : List α) (d : α) :
    (A ++ x :: (M ++ y :: R)).getD (A.length + 1 + M.length) d = y := by
  have he : A ++ x :: (M ++ y :: R) = (A ++ x :: M) ++ y :: R := by
    simp [List.append_assoc]
  have hl : (A ++ x :: M).length = A.length + 1 + M.length := by
    simp; omega
  rw [he, ← hl, getD_at_append]

theorem set_mid {α : Type} (A : List α) (x : α) (M : List α) (y : α)
    (R : List α) (v : α) :
    (A ++ x :: (M ++ y :: R)).set (A.length + 1 + M.length) v =
      A ++ x :: (M ++ v :: R) := by
  have he : A ++ x :: (M ++ y :: R) = (A ++ x :: M) ++ y :: R := by
    simp [List.append_assoc]
  have he2 : A ++ x :: (M ++ v :: R) = (A ++ x :: M) ++ v :: R := by
    simp [List.append_assoc]
  have hl : (A ++ x :: M).length = A.length + 1 + M.length := by simp; omega
  rw [he, he2, ← hl, set_at_append]

theorem insertAt_mid {α : Type} (A : List α) (x : α) (M : List α) (y : α)
    (R : List α) (v : α) :
    insertAt (A.length + 1 + M.length) v (A ++ x :: (M ++ y :: R)) =
      A ++ x :: (M ++ v :: (y :: R)) := by
  have he : A ++ x :: (M ++ y :: R) = (A ++ x :: M) ++ y :: R := by
    simp [List.append_assoc]
  have he2 : A ++ x :: (M ++ v :: (y :: R)) = (A ++ x :: M) ++ v :: (y :: R) := by
    simp [List.append_assoc]
  have hl : (A ++ x :: M).length = A.length + 1 + M.length := by simp; omega
  rw [he, he2, ← hl, insertAt_append]

theorem spanAt_head (s : Script) (Pp : List BubblePair) (hp : BubblePair)
    (T : List BubblePair) (e : s.pairs = Pp ++ hp :: T) :
    spanAt s Pp.length = hp.visualSpan := by
  unfold spanAt
  rw [e, getD_at_append]

theorem spanAt_covered (s : Script) (Pp : List BubblePair) (hp : BubblePair)
    (Zp Qp : List BubblePair) (e : s.pairs = Pp ++ hp :: (Zp ++ Qp))
    (hz : ∀ p ∈ Zp, p.visualSpan = some 0)
    (j : Nat) (h1 : Pp.length < j) (h2 : j ≤ Pp.length + Zp.length) :
    spanAt s j = some 0 := by
  have ht : j = (Pp.length + 1) + (j - Pp.length - 1) := by omega
  have htz : j - Pp.length - 1 < Zp.length := by omega
  have he : Pp ++ hp :: (Zp ++ Qp) = (Pp ++ [hp]) ++ (Zp ++ Qp) := by
    simp [List.append_assoc]
  have hl : (Pp ++ [hp]).length = Pp.length + 1 := by simp
  rw [spanAt, e, ht, he, ← hl, getD_append_right,
    getD_append_left _ _ _ _ htz]
  have hmem : Zp.getD (j - Pp.length - 1) dfltPair ∈ Zp := by
    rw [List.getD_eq_getElem _ _ htz]
    exact List.getElem_mem htz
  exact hz _ hmem

theorem findOwner_spec (s : Script) (Pp : List BubblePair) (hp : BubblePair)
    (Zp Qp : List BubblePair) (e : s.pairs = Pp ++ hp :: (Zp ++ Qp))
    (hz : ∀ p ∈ Zp, p.visualSpan = some 0) (hhp : hp.visualSpan ≠ some 0) :
    ∀ t, t ≤ Zp.length → findOwner s (Pp.length + t) = Pp.length := by
  intro t
  induction t with
  | zero =>
    intro _
    have hsp : spanAt s Pp.length = hp.visualSpan := spanAt_head s Pp hp _ e
    cases hP : Pp.length with
    | zero => simp [findOwner]
    | succ m =>
      rw [hP] at hsp
      show findOwner s (m + 1) = m + 1
      simp [findOwner, hsp, hhp]
  | succ t ih =>
    intro ht
    have hsp : spanAt s (Pp.length + (t + 1)) = some 0 :=
      spanAt_covered s Pp hp Zp Qp e hz _ (by omega) (by omega)
    have he : Pp.length + (t + 1) = (Pp.length + t) + 1 := by omega
    rw [he]
    rw [he] at hsp
    simp only [findOwner, hsp, if_pos]
    exact ih (by omega)

/-- Decomposition of a well-formed document around any row index: the
block (owner row + covered rows) containing the index, with well-formed
prefix and suffix. -/
theorem pairs_decomp (s : Script) (hb : Blocks (spanList s)) (i : Nat)
    (hi : i < s.pairs.length) :
    ∃ Pp hp k Zp Qp, s.pairs = Pp ++ hp :: (Zp ++ Qp) ∧
      Zp.length = k ∧ (∀ p ∈ Zp, p.visualSpan = some 0) ∧
      Blocks (Pp.map (fun p => p.visualSpan)) ∧
      IsBlockHead hp.visualSpan k ∧
      Blocks (Qp.map (fun p => p.visualSpan)) ∧
      Pp.length ≤ i ∧ i ≤ Pp.length + k := by
  have hi' : i < (spanList s).length := by simpa [spanList] using hi
  obtain ⟨P, h, k, Q, h1, h2, h3, h4, h5, h6⟩ := blocks_decomp hb i hi'
  have h1' : s.pairs.map (fun p => p.visualSpan) =
      P ++ h :: (List.replicate k (some 0) ++ Q) := h1
  obtain ⟨Pp, rest1, e1, e2, e3⟩ :=
    map_eq_append_inv _ s.pairs P (h :: (List.replicate k (some 0) ++ Q)) h1'
  obtain ⟨hp, rest2, e4, e5, e6⟩ :=
    map_eq_cons_inv _ rest1 h (List.replicate k (some 0) ++ Q) e3
  obtain ⟨Zp, Qp, e7, e8, e9⟩ :=
    map_eq_append_inv _ rest2 (List.replicate k (some 0)) Q e6
  obtain ⟨ez1, ez2⟩ := map_eq_replicate_all _ Zp k (some 0) e8
  have hPl : Pp.length = P.length := by
    have := congrArg List.length e2
    simpa using this
  refine ⟨Pp, hp, k, Zp, Qp, ?_, ez1, ez2, ?_, ?_, ?_, ?_, ?_⟩
  · rw [e1, e4, e7]
  · rw [e2]; exact h2
  · rw [e5]; exact h3
  · rw [e9]; exact h4
  · omega
  · omega

/-! ## Preservation of the coverage invariant -/

theorem isBlockHead_ite (n : Int) (z : Nat) (h : n = (z : Int) + 1) :
    IsBlockHead (if n = 1 then none else some n) z := by
  by_cases hn : n = 1
  · rw [if_pos hn]
    left
    exact ⟨rfl, by omega⟩
  · rw [if_neg hn]
    right
    rw [h]

theorem getD_of_getElem? {α : Type} {l : List α} {n : Nat} {a : α} (d : α)
    (h : l[n]? = some a) : l.getD n d = a := by
  unfold List.getD
  rw [List.get?_eq_getElem?, h]
  rfl

theorem lt_length_of_getElem? {α : Type} {l : List α} {n : Nat} {a : α}
    (h : l[n]? = some a) : n < l.length := by
  by_contra hge
  push_neg at hge
  rw [List.getElem?_eq_none hge] at h
  exact Option.noConfusion h

/-- The effective branch of `splitVisualSpan`, with its `let`s expanded. -/
theorem splitVisualSpan_effective_pairs (s : Script) (t g : Nat)
    (pair : BubblePair) (hx : s.pairs[t]? = some pair)
    (hsp : pair.visualSpan = some 0) :
    (splitVisualSpan t s g).1.pairs = mapIdxFrom (fun i p =>
      if i = findOwner s (t-1) then
        { p with visualSpan := if ((t : Int) - (findOwner s (t-1) : Int)) = 1 then none else some ((t : Int) - (findOwner s (t-1) : Int)) }
      else if i = t then
        { p with visual := createVisualBubble g "", visualSpan := if (orOne (spanAt s (findOwner s (t-1))) - ((t : Int) - (findOwner s (t-1) : Int))) = 1 then none else some (orOne (spanAt s (findOwner s (t-1))) - ((t : Int) - (findOwner s (t-1) : Int))) }
      else p) 0 s.pairs := by
  unfold splitVisualSpan
  rw [hx]
  simp only []
  rw [if_neg (not_ne_iff.mpr hsp)]

theorem splitVisualSpan_preserves (s : Script) (hinv : VisualInv s)
    (t g : Nat) : VisualInv ((splitVisualSpan t s g).1) := by
  cases hxx : s.pairs[t]? with
  | none =>
    unfold splitVisualSpan
    rw [hxx]
    exact hinv
  | some pair =>
    by_cases hsp : pair.visualSpan = some 0
    case neg =>
      unfold splitVisualSpan
      rw [hxx]
      simp only []
      rw [if_pos hsp]
      exact hinv
    case pos =>
      have ht : t < s.pairs.length := lt_length_of_getElem? hxx
      have hb : Blocks (spanList s) := coversOk_blocks hinv
      obtain ⟨Pp, hp, k, Zp, Qp, e, hkZ, hz, hbP, hbh, hbQ, h5, h6⟩ :=
        pairs_decomp s hb t ht
      have hgd : s.pairs.getD t dfltPair = pair := getD_of_getElem? dfltPair hxx
      have hspan_t : spanAt s t = some 0 := by unfold spanAt; rw [hgd, hsp]
      have hhp0 : hp.visualSpan ≠ some 0 := isBlockHead_ne_zero hbh
      have hlt : Pp.length < t := by
        rcases Nat.lt_or_ge Pp.length t with hcase | hcase
        · exact hcase
        · exfalso
          have hteq : t = Pp.length := by omega
          rw [hteq, spanAt_head s Pp hp _ e] at hspan_t
          exact hhp0 hspan_t
      have hk1 : 1 ≤ k := by omega
      have ho : findOwner s (t - 1) = Pp.length := by
        have h1 : t - 1 = Pp.length + (t - 1 - Pp.length) := by omega
        rw [h1]
        exact findOwner_spec s Pp hp Zp Qp e hz hhp0 _ (by omega)
      have hosp : orOne (spanAt s Pp.length) = (k : Int) + 1 := by
        rw [spanAt_head s Pp hp _ e]
        exact isBlockHead_orOne hbh
      obtain ⟨Z1, yp, Z2, eZ, hZ1⟩ := split_at_index Zp (t - Pp.length - 1) (by omega)
      have hZlen : Z1.length + 1 + Z2.length = k := by
        have := congrArg List.length eZ
        simp at this
        omega
      have e' : s.pairs = Pp ++ hp :: (Z1 ++ yp :: (Z2 ++ Qp)) := by
        rw [e, eZ]
        simp [List.append_assoc]
      have hbeq : t = Pp.length + 1 + Z1.length := by omega
      have ep : (splitVisualSpan t s g).1.pairs =
          Pp ++ ({ hp with visualSpan := if ((t : Int) - (Pp.length : Int)) = 1 then none else some ((t : Int) - (Pp.length : Int)) } ::
            (Z1 ++ ({ yp with visual := createVisualBubble g "", visualSpan := if (orOne (spanAt s Pp.length) - ((t : Int) - (Pp.length : Int))) = 1 then none else some (orOne (spanAt s Pp.length) - ((t : Int) - (Pp.length : Int))) } ::
              (Z2 ++ Qp)))) := by
        rw [splitVisualSpan_effective_pairs s t g pair hxx hsp, ho, e']
        refine mapIdxFrom_two_point_vals _ Pp hp Z1 yp (Z2 ++ Qp) Pp.length t
          rfl hbeq (fun i z h1 h2 => by simp only [if_neg h1, if_neg h2])
          _ _ ?_ ?_
        · simp only []
          simp only [if_true]
        · simp only []
          rw [if_neg (by omega)]
          simp only [if_true]
      have hzz : ∀ p ∈ Zp, p.visualSpan = some 0 := hz
      have hz1 : ∀ p ∈ Z1, p.visualSpan = some 0 := by
        intro p hpmem
        exact hzz p (by rw [eZ]; simp [hpmem])
      have hz2 : ∀ p ∈ Z2, p.visualSpan = some 0 := by
        intro p hpmem
        exact hzz p (by rw [eZ]; simp [hpmem])
      unfold VisualInv spanList
      rw [ep]
      simp only [List.map_append, List.map_cons]
      rw [map_eq_replicate_of _ Z1 _ hz1, map_eq_replicate_of _ Z2 _ hz2]
      apply blocks_coversOk
      refine blocks_append hbP ?_
      refine Blocks.cons _ Z1.length _ ?_ ?_
      · exact isBlockHead_ite _ _ (by omega)
      · refine Blocks.cons _ Z2.length _ ?_ hbQ
        exact isBlockHead_ite _ _ (by rw [hosp]; omega)

theorem insertFiller_preserves (s : Script) (hinv : VisualInv s)
    (t g : Nat) : VisualInv ((insertFiller t s g).1) := by
  have hb : Blocks (spanList s) := coversOk_blocks hinv
  by_cases hc : t < s.pairs.length ∧ spanAt s t = some 0
  case neg =>
    unfold insertFiller
    rw [if_neg hc]
    simp only []
    unfold VisualInv spanList
    simp only []
    rcases Nat.lt_or_ge t s.pairs.length with htl | htl
    · have hns : spanAt s t ≠ some 0 := fun hh => hc ⟨htl, hh⟩
      obtain ⟨Pp, hp, k, Zp, Qp, e, hkZ, hz, hbP, hbh, hbQ, h5, h6⟩ :=
        pairs_decomp s hb t htl
      have hteq : t = Pp.length := by
        rcases Nat.eq_or_lt_of_le h5 with hcase | hcase
        · omega
        · exfalso
          exact hns (spanAt_covered s Pp hp Zp Qp e hz t hcase (by omega))
      rw [hteq, e]
      rw [insertAt_append Pp _ (hp :: (Zp ++ Qp))]
      simp only [List.map_append, List.map_cons]
      rw [map_eq_replicate_of _ Zp _ hz, hkZ]
      apply blocks_coversOk
      refine blocks_append hbP ?_
      have hrest : Blocks (hp.visualSpan :: (List.replicate k (some 0) ++ Qp.map (fun p => p.visualSpan))) :=
        Blocks.cons _ k _ hbh hbQ
      have := Blocks.cons none 0 (hp.visualSpan :: (List.replicate k (some 0) ++ Qp.map (fun p => p.visualSpan))) (Or.inl ⟨rfl, rfl⟩) hrest
      simpa using this
    · rw [insertAt_ge t _ s.pairs htl]
      simp only [List.map_append, List.map_cons, List.map_nil]
      apply blocks_coversOk
      refine blocks_append ?_ ?_
      · exact hb
      · have := Blocks.cons (none : Option Int) 0 [] (Or.inl ⟨rfl, rfl⟩) Blocks.nil
        simpa using this
  case pos =>
    obtain ⟨htl, hsp0⟩ := hc
    obtain ⟨Pp, hp, k, Zp, Qp, e, hkZ, hz, hbP, hbh, hbQ, h5, h6⟩ :=
      pairs_decomp s hb t htl
    have hhp0 : hp.visualSpan ≠ some 0 := isBlockHead_ne_zero hbh
    have hlt : Pp.length < t := by
      rcases Nat.eq_or_lt_of_le h5 with hcase | hcase
      · exfalso
        rw [← hcase, spanAt_head s Pp hp _ e] at hsp0
        exact hhp0 hsp0
      · exact hcase
    have hk1 : 1 ≤ k := by omega
    have ho : findOwner s (t - 1) = Pp.length := by
      have h1 : t - 1 = Pp.length + (t - 1 - Pp.length) := by omega
      rw [h1]
      exact findOwner_spec s Pp hp Zp Qp e hz hhp0 _ (by omega)
    have hosp : orOne (spanAt s Pp.length) = (k : Int) + 1 := by
      rw [spanAt_head s Pp hp _ e]
      exact isBlockHead_orOne hbh
    obtain ⟨Z1, yp, Z2, eZ, hZ1⟩ := split_at_index Zp (t - Pp.length - 1) (by omega)
    have hZlen : Z1.length + 1 + Z2.length = k := by
      have := congrArg List.length eZ
      simp at this
      omega
    have e' : s.pairs = Pp ++ hp :: (Z1 ++ yp :: (Z2 ++ Qp)) := by
      rw [e, eZ]
      simp [List.append_assoc]
    have hbeq : t = Pp.length + 1 + Z1.length := by omega
    have hgdo : s.pairs.getD Pp.length dfltPair = hp := by
      rw [e']
      exact getD_at_append Pp hp _ dfltPair
    have hz1 : ∀ p ∈ Z1, p.visualSpan = some 0 := by
      intro p hpmem
      exact hz p (by rw [eZ]; simp [hpmem])
    have hz2 : ∀ p ∈ Z2, p.visualSpan = some 0 := by
      intro p hpmem
      exact hz p (by rw [eZ]; simp [hpmem])
    unfold insertFiller
    rw [if_pos ⟨htl, hsp0⟩]
    simp only []
    unfold VisualInv spanList
    simp only []
    rw [ho, hgdo, e']
    rw [set_at_append Pp hp (Z1 ++ yp :: (Z2 ++ Qp))]
    rw [hbeq]
    rw [getD_mid Pp _ Z1 yp (Z2 ++ Qp) dfltPair]
    rw [set_mid Pp _ Z1 yp (Z2 ++ Qp)]
    rw [insertAt_mid Pp _ Z1 _ (Z2 ++ Qp)]
    simp only [List.map_append, List.map_cons]
    rw [map_eq_replicate_of _ Z1 _ hz1, map_eq_replicate_of _ Z2 _ hz2]
    apply blocks_coversOk
    refine blocks_append hbP ?_
    refine Blocks.cons _ Z1.length _ ?_ ?_
    · exact isBlockHead_ite _ _ (by omega)
    · have hinner : Blocks ((if orOne (spanAt s Pp.length) - ((Pp.length + 1 + Z1.length : Nat) - (Pp.length : Nat) : Int) = 1 then none else some (orOne (spanAt s Pp.length) - ((Pp.length + 1 + Z1.length : Nat) - (Pp.length : Nat) : Int))) :: (List.replicate Z2.length (some 0) ++ Qp.map (fun p => p.visualSpan))) := by
        refine Blocks.cons _ Z2.length _ ?_ hbQ
        exact isBlockHead_ite _ _ (by rw [hosp]; push_cast; omega)
      have := Blocks.cons (none : Option Int) 0 _ (Or.inl ⟨rfl, rfl⟩) hinner
      simpa using this

theorem isBlockHead_some {h : Option Int} {k : Nat} {n : Int}
    (hv : h = some n) (hn : n = (k : Int) + 1) : IsBlockHead h k := by
  right
  rw [hv, hn]

theorem mergeVisualUp_preserves (s : Script) (hinv : VisualInv s)
    (pid : Nat) : VisualInv (mergeVisualUp pid s) := by
  have hb : Blocks (spanList s) := coversOk_blocks hinv
  cases hfi : findIndexOf (fun p => p.id = pid) s.pairs with
  | none =>
    unfold mergeVisualUp
    rw [hfi]
    exact hinv
  | some idx =>
    by_cases hidx : idx = 0
    · unfold mergeVisualUp
      rw [hfi]
      simp only []
      rw [if_pos hidx]
      exact hinv
    · have hlen : idx < s.pairs.length := (findIndexOf_spec _ _ _ dfltPair hfi).1
      have hidx1 : idx - 1 < s.pairs.length := by omega
      obtain ⟨Pp, hp, k, Zp, Qp, e, hkZ, hz, hbP, hbh, hbQ, h5, h6⟩ :=
        pairs_decomp s hb (idx - 1) hidx1
      have hhp0 : hp.visualSpan ≠ some 0 := isBlockHead_ne_zero hbh
      have hgeq : Pp.length + 1 ≤ idx := by omega
      have ho : findOwner s (idx - 1) = Pp.length := by
        have h1 : idx - 1 = Pp.length + (idx - 1 - Pp.length) := by omega
        rw [h1]
        exact findOwner_spec s Pp hp Zp Qp e hz hhp0 _ (by omega)
      have howner : s.pairs.getD Pp.length dfltPair = hp := by
        rw [e]
        exact getD_at_append Pp hp _ dfltPair
      unfold mergeVisualUp
      rw [hfi]
      simp only []
      rw [if_neg hidx]
      unfold VisualInv spanList
      simp only []
      rw [ho, howner]
      by_cases hcov : idx ≤ Pp.length + k
      case pos =>
        -- the addressed row is covered by the owner's span: spans unchanged
        have hk1 : 1 ≤ k := by omega
        obtain ⟨Z1, yp, Z2, eZ, hZ1⟩ :=
          split_at_index Zp (idx - Pp.length - 1) (by omega)
        have hZlen : Z1.length + 1 + Z2.length = k := by
          have := congrArg List.length eZ
          simp at this
          omega
        have e' : s.pairs = Pp ++ hp :: (Z1 ++ yp :: (Z2 ++ Qp)) := by
          rw [e, eZ]
          simp [List.append_assoc]
        have hbeq : idx = Pp.length + 1 + Z1.length := by omega
        have hysp : yp.visualSpan = some 0 := hz yp (by rw [eZ]; simp)
        have hgdc : s.pairs.getD idx dfltPair = yp := by
          rw [e', hbeq]
          exact getD_mid Pp hp Z1 yp (Z2 ++ Qp) dfltPair
        have hhpv : hp.visualSpan = some ((k : Int) + 1) :=
          isBlockHead_of_pos hbh hk1
        have hz1 : ∀ p ∈ Z1, p.visualSpan = some 0 := by
          intro p hpmem
          exact hz p (by rw [eZ]; simp [hpmem])
        have hz2 : ∀ p ∈ Z2, p.visualSpan = some 0 := by
          intro p hpmem
          exact hz p (by rw [eZ]; simp [hpmem])
        rw [hgdc, e']
        rw [mapIdxFrom_two_point_vals _ Pp hp Z1 yp (Z2 ++ Qp) Pp.length idx
          rfl hbeq (fun i z h1 h2 => by simp only [if_neg h1, if_neg h2])
          { hp with visual := { hp.visual with content := joinNonEmpty hp.visual.content yp.visual.content }, visualSpan := some (orOne hp.visualSpan + orOne yp.visualSpan) }
          { yp with visualSpan := some 0 }
          (by simp only []; simp only [if_true])
          (by simp only []; rw [if_neg (by omega)]; simp only [if_true])]
        simp only [List.map_append, List.map_cons]
        rw [map_eq_replicate_of _ Z1 _ hz1, map_eq_replicate_of _ Z2 _ hz2]
        apply blocks_coversOk
        refine blocks_append hbP ?_
        have hsh : List.replicate Z1.length (some (0 : Int)) ++
            (some 0 :: (List.replicate Z2.length (some 0) ++
              Qp.map (fun p => p.visualSpan))) =
            List.replicate k (some 0) ++ Qp.map (fun p => p.visualSpan) := by
          rw [← List.cons_append, ← List.append_assoc, replicate_merge, hZlen]
        rw [hsh]
        refine Blocks.cons _ k _ ?_ hbQ
        refine isBlockHead_some rfl ?_
        rw [hhpv, hysp]
        simp [orOne]
      case neg =>
        -- the addressed row is the first row after the owner's block
        have hbeq : idx = Pp.length + 1 + Zp.length := by omega
        cases hQ : Qp with
        | nil =>
          exfalso
          have := congrArg List.length e
          rw [hQ] at this
          simp at this
          omega
        | cons qp Rp =>
          have e' : s.pairs = Pp ++ hp :: (Zp ++ qp :: Rp) := by rw [e, hQ]
          have hgdc : s.pairs.getD idx dfltPair = qp := by
            rw [e', hbeq]
            exact getD_mid Pp hp Zp qp Rp dfltPair
          obtain ⟨m, T', hqh, hT, hbT⟩ : ∃ m T', IsBlockHead qp.visualSpan m ∧
              Rp.map (fun p => p.visualSpan) = List.replicate m (some 0) ++ T' ∧
              Blocks T' := by
            have hbq' : Blocks (qp.visualSpan :: Rp.map (fun p => p.visualSpan)) := by
              have := hbQ
              rw [hQ] at this
              simpa using this
            obtain ⟨m, T', h1, h2, h3⟩ := blocks_cons_inv hbq'
            exact ⟨m, T', h1, h2, h3⟩
          have hz' : ∀ p ∈ Zp, p.visualSpan = some 0 := hz
          rw [hgdc, e']
          rw [mapIdxFrom_two_point_vals _ Pp hp Zp qp Rp Pp.length idx
            rfl hbeq (fun i z h1 h2 => by simp only [if_neg h1, if_neg h2])
            { hp with visual := { hp.visual with content := joinNonEmpty hp.visual.content qp.visual.content }, visualSpan := some (orOne hp.visualSpan + orOne qp.visualSpan) }
            { qp with visualSpan := some 0 }
            (by simp only []; simp only [if_true])
            (by simp only []; rw [if_neg (by omega)]; simp only [if_true])]
          simp only [List.map_append, List.map_cons]
          rw [map_eq_replicate_of _ Zp _ hz', hkZ, hT]
          apply blocks_coversOk
          refine blocks_append hbP ?_
          have hsh : List.replicate k (some (0 : Int)) ++
              (some 0 :: (List.replicate m (some 0) ++ T')) =
              List.replicate (k + 1 + m) (some 0) ++ T' := by
            rw [← List.cons_append, ← List.append_assoc, replicate_merge]
          rw [hsh]
          refine Blocks.cons _ (k + 1 + m) _ ?_ hbT
          refine isBlockHead_some rfl ?_
          rw [isBlockHead_orOne hbh, isBlockHead_orOne hqh]
          push_cast
          ring

theorem mergeVisualDown_preserves (s : Script) (hinv : VisualInv s)
    (pid : Nat)
    (hpre : ∀ idx, findIndexOf (fun p => p.id = pid) s.pairs = some idx →
      (s.pairs.getD idx dfltPair).visualSpan ≠ some 0) :
    VisualInv (mergeVisualDown pid s) := by
  have hb : Blocks (spanList s) := coversOk_blocks hinv
  cases hfi : findIndexOf (fun p => p.id = pid) s.pairs with
  | none =>
    unfold mergeVisualDown
    rw [hfi]
    exact hinv
  | some idx =>
    by_cases hend : idx + 1 ≥ s.pairs.length
    · unfold mergeVisualDown
      rw [hfi]
      simp only []
      rw [if_pos hend]
      exact hinv
    · push_neg at hend
      have hlen : idx < s.pairs.length := by omega
      obtain ⟨Pp, hp, k, Zp, Qp, e, hkZ, hz, hbP, hbh, hbQ, h5, h6⟩ :=
        pairs_decomp s hb idx hlen
      have hns : (s.pairs.getD idx dfltPair).visualSpan ≠ some 0 := hpre idx hfi
      have hteq : idx = Pp.length := by
        rcases Nat.eq_or_lt_of_le h5 with hcase | hcase
        · omega
        · exfalso
          apply hns
          have := spanAt_covered s Pp hp Zp Qp e hz idx hcase (by omega)
          simpa [spanAt] using this
      have hgd : s.pairs.getD idx dfltPair = hp := by
        rw [hteq, e]
        exact getD_at_append Pp hp _ dfltPair
      unfold mergeVisualDown
      rw [hfi]
      simp only []
      rw [if_neg (by omega)]
      unfold VisualInv spanList
      simp only []
      rw [hgd]
      by_cases hk : 1 ≤ k
      case pos =>
        -- the row below is covered by the addressed row's own span
        obtain ⟨Z1, yp, Z2, eZ, hZ1⟩ := split_at_index Zp 0 (by omega)
        have hZ1nil : Z1 = [] := List.length_eq_zero.mp hZ1
        have eZ' : Zp = yp :: Z2 := by rw [eZ, hZ1nil]; rfl
        have hZ2len : Z2.length + 1 = k := by
          have := congrArg List.length eZ'
          simp at this
          omega
        have e' : s.pairs = Pp ++ hp :: (([] : List BubblePair) ++ (yp :: (Z2 ++ Qp))) := by
          rw [e, eZ']
          simp [List.append_assoc]
        have hbeq2 : idx + 1 = Pp.length + 1 + ([] : List BubblePair).length := by
          simp
          omega
        have hgdb : s.pairs.getD (idx + 1) dfltPair = yp := by
          rw [e', hbeq2]
          exact getD_mid Pp hp [] yp (Z2 ++ Qp) dfltPair
        have hysp : yp.visualSpan = some 0 := hz yp (by rw [eZ']; simp)
        have hz2 : ∀ p ∈ Z2, p.visualSpan = some 0 := by
          intro p hpmem
          exact hz p (by rw [eZ']; simp [hpmem])
        rw [hgdb, e']
        rw [mapIdxFrom_two_point_vals _ Pp hp [] yp (Z2 ++ Qp) idx (idx + 1)
          hteq hbeq2 (fun i z h1 h2 => by simp only [if_neg h1, if_neg h2])
          { hp with visual := { hp.visual with content := joinNonEmpty hp.visual.content yp.visual.content }, visualSpan := some (orOne hp.visualSpan + orOne yp.visualSpan) }
          { yp with visualSpan := some 0 }
          (by simp only []; simp only [if_true])
          (by simp only []; rw [if_neg (by omega)]; simp only [if_true])]
        simp only [List.map_append, List.map_cons, List.map_nil, List.nil_append]
        rw [map_eq_replicate_of _ Z2 _ hz2]
        apply blocks_coversOk
        refine blocks_append hbP ?_
        have hsh : (some (0 : Int)) :: (List.replicate Z2.length (some 0) ++
            Qp.map (fun p => p.visualSpan)) =
            List.replicate k (some 0) ++ Qp.map (fun p => p.visualSpan) := by
          rw [← List.cons_append, ← List.replicate_succ, hZ2len]
        rw [hsh]
        refine Blocks.cons _ k _ ?_ hbQ
        refine isBlockHead_some rfl ?_
        rw [isBlockHead_orOne hbh, hysp]
        simp [orOne]
      case neg =>
        -- the row below is the head of the next block
        have hk0 : k = 0 := by omega
        have hZnil : Zp = [] := List.length_eq_zero.mp (by omega)
        cases hQ : Qp with
        | nil =>
          exfalso
          have := congrArg List.length e
          rw [hQ, hZnil] at this
          simp at this
          omega
        | cons qp Rp =>
          have e' : s.pairs = Pp ++ hp :: (([] : List BubblePair) ++ (qp :: Rp)) := by
            rw [e, hZnil, hQ]
          have hbeq2 : idx + 1 = Pp.length + 1 + ([] : List BubblePair).length := by
            simp
            omega
          have hgdb : s.pairs.getD (idx + 1) dfltPair = qp := by
            rw [e', hbeq2]
            exact getD_mid Pp hp [] qp Rp dfltPair
          obtain ⟨m, T', hqh, hT, hbT⟩ : ∃ m T', IsBlockHead qp.visualSpan m ∧
              Rp.map (fun p => p.visualSpan) = List.replicate m (some 0) ++ T' ∧
              Blocks T' := by
            have hbq' : Blocks (qp.visualSpan :: Rp.map (fun p => p.visualSpan)) := by
              have := hbQ
              rw [hQ] at this
              simpa using this
            exact blocks_cons_inv hbq'
          rw [hgdb, e']
          rw [mapIdxFrom_two_point_vals _ Pp hp [] qp Rp idx (idx + 1)
            hteq hbeq2 (fun i z h1 h2 => by simp only [if_neg h1, if_neg h2])
            { hp with visual := { hp.visual with content := joinNonEmpty hp.visual.content qp.visual.content }, visualSpan := some (orOne hp.visualSpan + orOne qp.visualSpan) }
            { qp with visualSpan := some 0 }
            (by simp only []; simp only [if_true])
            (by simp only []; rw [if_neg (by omega)]; simp only [if_true])]
          simp only [List.map_append, List.map_cons, List.map_nil, List.nil_append]
          rw [hT]
          apply blocks_coversOk
          refine blocks_append hbP ?_
          have hsh : (some (0 : Int)) :: (List.replicate m (some 0) ++ T') =
              List.replicate (m + 1) (some 0) ++ T' := by
            rw [← List.cons_append, ← List.replicate_succ]
          rw [hsh]
          refine Blocks.cons _ (m + 1) _ ?_ hbT
          refine isBlockHead_some rfl ?_
          rw [isBlockHead_orOne hbh, isBlockHead_orOne hqh, hk0]
          push_cast
          ring

theorem findOwner_le (s : Script) (j : Nat) : findOwner s j ≤ j := by
  induction j with
  | zero => exact Nat.le_refl 0
  | succ m ih =>
    unfold findOwner
    split
    · omega
    · exact Nat.le_refl _

theorem visualInv_head (s : Script) (hinv : VisualInv s)
    (h : 0 < s.pairs.length) : spanAt s 0 ≠ some 0 := by
  have hb := coversOk_blocks hinv
  cases hsp : spanList s with
  | nil =>
    have hlen := congrArg List.length hsp
    simp only [spanList, List.length_map, List.length_nil] at hlen
    omega
  | cons x rest =>
    rw [hsp] at hb
    obtain ⟨m, T', hh, _, _⟩ := blocks_cons_inv hb
    have hx : spanAt s 0 = x := by
      have h0 : spanAt s 0 = (spanList s).getD 0 none := by
        unfold spanAt spanList
        rw [getD_map_lt (fun p => p.visualSpan) s.pairs 0 none dfltPair h]

      rw [h0, hsp]
      rfl
    rw [hx]
    exact isBlockHead_ne_zero hh

/-! ## C1: the visual-span coverage invariant -/

/-- C1 (corrected): for every script satisfying the visual-span coverage
invariant, `insertFiller` (insertPause), `mergeVisualUp` and
`splitVisualSpan` preserve the invariant for arbitrary arguments, and
`mergeVisualDown` preserves it whenever the addressed row is not itself a
covered row (`visualSpan ≠ 0`, which is the only way the UI can invoke
it).  Applied to a covered row, `mergeVisualDown` can break the invariant
— see the counterexample. -/
theorem c1_span_invariant_preserved (s : Script) (hinv : VisualInv s) :
    (∀ atIndex g, VisualInv ((insertFiller atIndex s g).1)) ∧
    (∀ pairId, VisualInv (mergeVisualUp pairId s)) ∧
    (∀ atPairIndex g, VisualInv ((splitVisualSpan atPairIndex s g).1)) ∧
    (∀ pairId idx, findIndexOf (fun p => p.id = pairId) s.pairs = some idx →
      (s.pairs.getD idx dfltPair).visualSpan ≠ some 0 →
      VisualInv (mergeVisualDown pairId s)) := by
  refine ⟨fun a g => insertFiller_preserves s hinv a g,
    fun pid => mergeVisualUp_preserves s hinv pid,
    fun t g => splitVisualSpan_preserves s hinv t g,
    fun pid idx h1 h2 => mergeVisualDown_preserves s hinv pid ?_⟩
  intro idx' hfi'
  rw [h1] at hfi'
  injection hfi' with hq
  rw [← hq]
  exact h2

/-- C1 counterexample: on the well-formed document `[span 2, covered,
plain]`, `mergeVisualDown` addressed at the covered middle row yields the
spans `[2, 1, 0]`, which violate the coverage invariant.  This refutes
the claim as stated (invariance under arbitrary arguments). -/
theorem c1_counterexample :
    VisualInv exScript3 ∧ ¬ VisualInv (mergeVisualDown 2 exScript3) := by
  constructor
  · decide
  · decide

/-- C1 witness: the amended theorem applied to a concrete two-row script
with a spanning visual. -/
theorem c1_witness : VisualInv ((insertFiller 1 exScript2 100).1) :=
  (c1_span_invariant_preserved exScript2 (by decide)).1 1 100

/-! ## C2: effectiveness of splitBubble -/

/-- The result of an effective `splitBubble`, with its `let`s expanded. -/
theorem splitBubble_effective_pairs (s : Script) (g pairId charOffset idx : Nat)
    (hfi : findIndexOf (fun p => p.id = pairId) s.pairs = some idx)
    (htb : strTrim (strTake (s.pairs.getD idx dfltPair).text.content charOffset) ≠ "")
    (hta : strTrim (strDrop (s.pairs.getD idx dfltPair).text.content charOffset) ≠ "") :
    (splitBubble pairId charOffset s g).1 =
      { s with pairs := s.pairs.take idx ++ splitRows (s.pairs.getD idx dfltPair) charOffset g ++ s.pairs.drop (idx+1) } := by
  unfold splitBubble
  rw [hfi]
  simp only []
  rw [if_neg (not_or.mpr ⟨htb, hta⟩)]
  unfold splitRows visualSplitPosOf
  rfl

/-- C2: `splitBubble(pairId, charOffset)` changes the document if and only
if a pair with that id exists and both trimmed slices of its spoken text
at the offset are non-empty; in every other case the returned script is
the input unchanged.  When effective, the two resulting rows' spoken
texts are the trimmed before/after slices. -/
theorem c2_splitBubble_effectiveness (s : Script) (g pairId charOffset : Nat) :
    ((splitBubble pairId charOffset s g).1 = s ↔
      ¬ effectiveSplit s pairId charOffset) ∧
    (effectiveSplit s pairId charOffset →
      ∀ idx, findIndexOf (fun p => p.id = pairId) s.pairs = some idx →
        (splitBubble pairId charOffset s g).1.pairs.length = s.pairs.length + 1 ∧
        ((splitBubble pairId charOffset s g).1.pairs.getD idx dfltPair).text.content =
          strTrim (strTake (s.pairs.getD idx dfltPair).text.content charOffset) ∧
        ((splitBubble pairId charOffset s g).1.pairs.getD (idx+1) dfltPair).text.content =
          strTrim (strDrop (s.pairs.getD idx dfltPair).text.content charOffset)) := by
  cases hfi : findIndexOf (fun p => p.id = pairId) s.pairs with
  | none =>
    have hres : (splitBubble pairId charOffset s g).1 = s := by
      unfold splitBubble
      rw [hfi]
    have heq : effectiveSplit s pairId charOffset = False := by
      unfold effectiveSplit
      rw [hfi]
    constructor
    · rw [hres, heq]
      simp
    · rw [heq]
      exact fun h => h.elim
  | some idx0 =>
    have heq : effectiveSplit s pairId charOffset =
        ((strTrim (strTake (s.pairs.getD idx0 dfltPair).text.content charOffset) ≠ "") ∧
         (strTrim (strDrop (s.pairs.getD idx0 dfltPair).text.content charOffset) ≠ "")) := by
      unfold effectiveSplit
      rw [hfi]
    by_cases hemp : strTrim (strTake (s.pairs.getD idx0 dfltPair).text.content charOffset) = "" ∨
        strTrim (strDrop (s.pairs.getD idx0 dfltPair).text.content charOffset) = ""
    · have hres : (splitBubble pairId charOffset s g).1 = s := by
        unfold splitBubble
        rw [hfi]
        simp only []
        rw [if_pos hemp]
      have hneff : ¬ effectiveSplit s pairId charOffset := by
        rw [heq]
        rintro ⟨h1, h2⟩
        rcases hemp with h | h
        · exact h1 h
        · exact h2 h
      constructor
      · rw [hres]
        exact iff_of_true rfl hneff
      · exact fun heff => absurd heff hneff
    · push_neg at hemp
      obtain ⟨htb, hta⟩ := hemp
      have hlen : idx0 < s.pairs.length := (findIndexOf_spec _ _ _ dfltPair hfi).1
      have hres := splitBubble_effective_pairs s g pairId charOffset idx0 hfi htb hta
      have htk : (s.pairs.take idx0).length = idx0 := by
        simp
        omega
      have hshape : ∀ a b : BubblePair, s.pairs.take idx0 ++ [a, b] ++ s.pairs.drop (idx0+1) =
          s.pairs.take idx0 ++ a :: b :: s.pairs.drop (idx0+1) := by
        intro a b
        simp
      have hlength : (splitBubble pairId charOffset s g).1.pairs.length =
          s.pairs.length + 1 := by
        rw [hres]
        simp only [splitRows]
        simp [List.length_append, List.length_take, List.length_drop]
        omega
      constructor
      · constructor
        · intro heqs
          exfalso
          rw [heqs] at hlength
          omega
        · intro hneff
          exfalso
          apply hneff
          rw [heq]
          exact ⟨htb, hta⟩
      · intro _ idx hfi2
        injection hfi2 with hq
        subst hq
        refine ⟨hlength, ?_, ?_⟩
        · rw [hres]
          simp only [splitRows]
          rw [hshape, getD_at_append' _ _ _ dfltPair idx0 htk.symm]
          simp [createPair, createTextBubble]
        · rw [hres]
          simp only [splitRows]
          rw [hshape, getD_snd_append' _ _ _ _ dfltPair (idx0+1) (by omega)]
          simp [createPair, createTextBubble]

/-- C2 witness: the claim's own examples.  Splitting `"Hello world"` at
offset 5 is effective and produces rows `"Hello"` / `"world"`; splitting
at offset 0 is a no-op. -/
theorem c2_witness :
    effectiveSplit exHello 0 5 ∧
    ((splitBubble 0 5 exHello 100).1.pairs.getD 0 dfltPair).text.content = "Hello" ∧
    ((splitBubble 0 5 exHello 100).1.pairs.getD 1 dfltPair).text.content = "world" ∧
    (splitBubble 0 0 exHello 100).1 = exHello := by
  have h := (c2_splitBubble_effectiveness exHello 100 0 5).2 (by decide) 0 (by decide)
  refine ⟨by decide, ?_, ?_, ?_⟩
  · rw [h.2.1]
    decide
  · rw [h.2.2]
    decide
  · exact ((c2_splitBubble_effectiveness exHello 100 0 0).1).mpr (by decide)

/-! ## C3: the rows produced by an effective splitBubble -/

/-- C3 (corrected): when `splitBubble` is effective, the original row is
replaced by exactly two consecutive new rows with fresh ids (the original
row's id no longer appears), each with spoken duration
`max(estimateDuration(text), 0.5)`; the visual content is divided at the
proportional position `round(visualLength * charOffset / textLength)`.
The first row's visual content is the trimmed before-slice — or the
entire original visual content when the trimmed *before*-slice is empty
(not, as the claim states, when the after-slice is empty; see the
counterexample) — and the second row's visual content is the trimmed
after-slice. -/
theorem c3_splitBubble_rows (s : Script) (g pairId charOffset idx : Nat)
    (hfi : findIndexOf (fun p => p.id = pairId) s.pairs = some idx)
    (htb : strTrim (strTake (s.pairs.getD idx dfltPair).text.content charOffset) ≠ "")
    (hta : strTrim (strDrop (s.pairs.getD idx dfltPair).text.content charOffset) ≠ "")
    (hfresh : ∀ p ∈ s.pairs, p.id < g)
    (hnd : (s.pairs.map (fun p => p.id)).Nodup) :
    (splitBubble pairId charOffset s g).1.pairs =
      s.pairs.take idx ++ splitRows (s.pairs.getD idx dfltPair) charOffset g ++ s.pairs.drop (idx+1) ∧
    pairId ∉ (splitBubble pairId charOffset s g).1.pairs.map (fun p => p.id) ∧
    ((splitBubble pairId charOffset s g).1.pairs.getD idx dfltPair).id = g ∧
    ((splitBubble pairId charOffset s g).1.pairs.getD (idx+1) dfltPair).id = g + 3 ∧
    ((splitBubble pairId charOffset s g).1.pairs.getD idx dfltPair).text.durationSeconds =
      max (estimateDuration (strTrim (strTake (s.pairs.getD idx dfltPair).text.content charOffset))) (1/2) ∧
    ((splitBubble pairId charOffset s g).1.pairs.getD (idx+1) dfltPair).text.durationSeconds =
      max (estimateDuration (strTrim (strDrop (s.pairs.getD idx dfltPair).text.content charOffset))) (1/2) ∧
    ((splitBubble pairId charOffset s g).1.pairs.getD idx dfltPair).visual.content =
      (if strTrim (strTake (s.pairs.getD idx dfltPair).visual.content (visualSplitPosOf (s.pairs.getD idx dfltPair) charOffset)) = "" then (s.pairs.getD idx dfltPair).visual.content else strTrim (strTake (s.pairs.getD idx dfltPair).visual.content (visualSplitPosOf (s.pairs.getD idx dfltPair) charOffset))) ∧
    ((splitBubble pairId charOffset s g).1.pairs.getD (idx+1) dfltPair).visual.content =
      strTrim (strDrop (s.pairs.getD idx dfltPair).visual.content (visualSplitPosOf (s.pairs.getD idx dfltPair) charOffset)) := by
  have hres := splitBubble_effective_pairs s g pairId charOffset idx hfi htb hta
  have hlen : idx < s.pairs.length := (findIndexOf_spec _ _ _ dfltPair hfi).1
  have hpid : (s.pairs.getD idx dfltPair).id = pairId := by
    have h2 := (findIndexOf_spec (fun p => p.id = pairId) s.pairs idx dfltPair hfi).2
    simpa using h2
  have htk : (s.pairs.take idx).length = idx := by
    simp
    omega
  have hshape : ∀ a b : BubblePair, s.pairs.take idx ++ [a, b] ++ s.pairs.drop (idx+1) =
      s.pairs.take idx ++ a :: b :: s.pairs.drop (idx+1) := by
    intro a b
    simp
  refine ⟨by rw [hres], ?_, ?_, ?_, ?_, ?_, ?_, ?_⟩
  · -- the original id no longer appears
    have hidsplit : s.pairs.map (fun p => p.id) =
        (s.pairs.take idx).map (fun p => p.id) ++
          pairId :: (s.pairs.drop (idx+1)).map (fun p => p.id) := by
      conv_lhs => rw [← List.take_append_drop idx s.pairs]
      rw [List.drop_eq_getElem_cons hlen]
      simp only [List.map_append, List.map_cons]
      rw [show (s.pairs[idx]).id = pairId from by
        rw [← List.getD_eq_getElem s.pairs dfltPair hlen]; exact hpid]
    have hnodup := hnd
    rw [hidsplit] at hnodup
    obtain ⟨hnd1, hnd2, hdis⟩ := List.nodup_append.mp hnodup
    have hpidtake : pairId ∉ (s.pairs.take idx).map (fun p => p.id) :=
      fun hmem => (hdis hmem) (by simp)
    have hpiddrop : pairId ∉ (s.pairs.drop (idx+1)).map (fun p => p.id) :=
      (List.nodup_cons.mp hnd2).1
    have hplt : pairId < g := by
      have hm : s.pairs.getD idx dfltPair ∈ s.pairs := by
        rw [List.getD_eq_getElem s.pairs dfltPair hlen]
        exact List.getElem_mem hlen
      have := hfresh _ hm
      omega
    intro hmem
    rw [hres] at hmem
    simp only [splitRows, createPair, List.map_append, List.map_cons, List.map_nil,
      List.mem_append, List.mem_cons, List.not_mem_nil, or_false, or_assoc] at hmem
    rcases hmem with h | h | h | h
    · exact hpidtake h
    · omega
    · omega
    · exact hpiddrop h
  · rw [hres]
    simp only [splitRows]
    rw [hshape, getD_at_append' _ _ _ dfltPair idx htk.symm]
    simp [createPair]
  · rw [hres]
    simp only [splitRows]
    rw [hshape, getD_snd_append' _ _ _ _ dfltPair (idx+1) (by omega)]
    simp [createPair]
  · rw [hres]
    simp only [splitRows]
    rw [hshape, getD_at_append' _ _ _ dfltPair idx htk.symm]
    simp [createPair, createTextBubble]
  · rw [hres]
    simp only [splitRows]
    rw [hshape, getD_snd_append' _ _ _ _ dfltPair (idx+1) (by omega)]
    simp [createPair, createTextBubble]
  · rw [hres]
    simp only [splitRows]
    rw [hshape, getD_at_append' _ _ _ dfltPair idx htk.symm]
    simp [createPair, createVisualBubble]
  · rw [hres]
    simp only [splitRows]
    rw [hshape, getD_snd_append' _ _ _ _ dfltPair (idx+1) (by omega)]
    simp [createPair, createVisualBubble]

/-- C3 counterexample: on a row with spoken text `"abcdef ghi"` and
visual content `" x"`, splitting at offset 9 is effective, the visual
after-slice at the proportional position is empty, yet the first
resulting row's visual content is `"x"` (the trimmed before-slice), not
the entire original visual content `" x"` — refuting the claim's
conditional as stated. -/
theorem c3_counterexample :
    (splitBubble 0 9 exPadded 100).1.pairs.length = exPadded.pairs.length + 1 ∧
    strDrop (exPadded.pairs.getD 0 dfltPair).visual.content
      (visualSplitPosOf (exPadded.pairs.getD 0 dfltPair) 9) = "" ∧
    ((splitBubble 0 9 exPadded 100).1.pairs.getD 0 dfltPair).visual.content ≠
      (exPadded.pairs.getD 0 dfltPair).visual.content := by
  have hpos : visualSplitPosOf (exPadded.pairs.getD 0 dfltPair) 9 = 2 := by
    unfold visualSplitPosOf jsRound
    rw [show strLength (exPadded.pairs.getD 0 dfltPair).visual.content = 2 from by decide,
      show strLength (exPadded.pairs.getD 0 dfltPair).text.content = 10 from by decide]
    push_cast
    rw [show ⌊(2:ℚ) * ((9:ℚ)/(10:ℚ)) + 1/2⌋ = 2 from by
      rw [Int.floor_eq_iff]
      constructor <;> norm_num]
    rfl
  have hres := splitBubble_effective_pairs exPadded 100 0 9 0 (by decide) (by decide)
    (by decide)
  refine ⟨?_, ?_, ?_⟩
  · rw [hres]
    decide
  · rw [hpos]
    decide
  · rw [hres]
    simp only [splitRows]
    rw [hpos]
    decide

/-- C3 witness: splitting `"Hello world"` at offset 5 removes the
original row id from the document. -/
theorem c3_witness :
    0 ∉ (splitBubble 0 5 exHello 100).1.pairs.map (fun p => p.id) :=
  (c3_splitBubble_rows exHello 100 0 5 0 (by decide) (by decide) (by decide)
    (by decide) (by decide)).2.1

/-! ## C4: mergePairUp / mergePairDown -/

/-- C4: for a pair id found at a position that is not the first
(respectively last), `mergePairUp` (`mergePairDown`) replaces the two
adjacent rows by the single merged row `mergedPairOf upper lower`
(non-empty contents joined by a newline, re-estimated spoken duration
with `manualDuration` cleared, spans summed and normalized);
`mergePairUp` on the first row and `mergePairDown` on the last row
return the document unchanged. -/
theorem c4_merge_pair (s : Script) (pairId : Nat) :
    (∀ i, findIndexOf (fun p => p.id = pairId) s.pairs = some (i + 1) →
      mergePairUp pairId s =
        { s with pairs := s.pairs.take i ++ [mergedPairOf (s.pairs.getD i dfltPair) (s.pairs.getD (i+1) dfltPair)] ++ s.pairs.drop (i + 2) }) ∧
    (findIndexOf (fun p => p.id = pairId) s.pairs = some 0 →
      mergePairUp pairId s = s) ∧
    (∀ i, findIndexOf (fun p => p.id = pairId) s.pairs = some i →
      i + 1 < s.pairs.length →
      mergePairDown pairId s =
        { s with pairs := s.pairs.take i ++ [mergedPairOf (s.pairs.getD i dfltPair) (s.pairs.getD (i+1) dfltPair)] ++ s.pairs.drop (i + 2) }) ∧
    (∀ i, findIndexOf (fun p => p.id = pairId) s.pairs = some i →
      i + 1 = s.pairs.length → mergePairDown pairId s = s) := by
  refine ⟨?_, ?_, ?_, ?_⟩
  · intro i hfi
    unfold mergePairUp
    rw [hfi]
    simp only []
    rw [if_neg (Nat.succ_ne_zero i)]
    unfold mergedPairOf
    simp only [Nat.add_sub_cancel]
  · intro hfi
    unfold mergePairUp
    rw [hfi]
    rfl
  · intro i hfi hlt
    unfold mergePairDown
    rw [hfi]
    simp only []
    rw [if_neg (by omega)]
    unfold mergedPairOf
    rfl
  · intro i hfi hend
    unfold mergePairDown
    rw [hfi]
    simp only []
    rw [if_pos (by omega)]

/-- C4 witness: merging the second row of a two-row document up. -/
theorem c4_witness :
    mergePairUp 2 exScript2 =
      { exScript2 with pairs := exScript2.pairs.take 0 ++ [mergedPairOf (exScript2.pairs.getD 0 dfltPair) (exScript2.pairs.getD 1 dfltPair)] ++ exScript2.pairs.drop 2 } :=
  (c4_merge_pair exScript2 2).1 0 (by decide)

/-! ## C5: insertFiller (insertPause) -/

/-- C5: on a well-formed document, `insertFiller atIndex` inserts one new
pause row (filler kind, empty content, default 1s duration,
`manualDuration = true`, its own empty non-suppressed visual) at
`atIndex`, keeping the rows before it and shifting the rows from
`atIndex` on down by one (their ids in order). Concretely, on a 2-row
script whose first row spans 2 and whose second row is covered,
`insertFiller 1` first splits the span: row 0's span becomes `undefined`,
the new pause row sits at index 1, and the original second row moves to
index 2 with a fresh independent visual and span `undefined`. -/
theorem c5_insertFiller_inserts :
    (∀ s atIndex g, VisualInv s → atIndex ≤ s.pairs.length →
      ((insertFiller atIndex s g).1.pairs.length = s.pairs.length + 1) ∧
      (∀ j, j < atIndex →
        ((insertFiller atIndex s g).1.pairs.getD j dfltPair).id =
          (s.pairs.getD j dfltPair).id) ∧
      (∀ j, atIndex ≤ j → j < s.pairs.length →
        ((insertFiller atIndex s g).1.pairs.getD (j+1) dfltPair).id =
          (s.pairs.getD j dfltPair).id) ∧
      (((insertFiller atIndex s g).1.pairs.getD atIndex dfltPair).text.type = .filler ∧
       ((insertFiller atIndex s g).1.pairs.getD atIndex dfltPair).text.content = "" ∧
       ((insertFiller atIndex s g).1.pairs.getD atIndex dfltPair).text.durationSeconds = 1 ∧
       ((insertFiller atIndex s g).1.pairs.getD atIndex dfltPair).text.manualDuration = some true ∧
       ((insertFiller atIndex s g).1.pairs.getD atIndex dfltPair).visual.content = "" ∧
       ((insertFiller atIndex s g).1.pairs.getD atIndex dfltPair).visualSpan = none)) ∧
    (∀ (title : String) (dur : ℚ) (r0 r1 : BubblePair) (g : Nat),
      r0.visualSpan = some 2 → r1.visualSpan = some 0 →
      insertFiller 1 ⟨title, dur, [r0, r1]⟩ g =
        (⟨title, dur,
          [{ r0 with visualSpan := none },
           { id := g+1, text := createFillerBubble (g+2), visual := createVisualBubble (g+3) "", visualSpan := none },
           { r1 with visual := createVisualBubble g "", visualSpan := none }]⟩,
         g + 4)) := by
  constructor
  · intro s atIndex g hinv hle
    by_cases hc : atIndex < s.pairs.length ∧ spanAt s atIndex = some 0
    case neg =>
      unfold insertFiller
      rw [if_neg hc]
      simp only []
      refine ⟨?_, ?_, ?_, ?_⟩
      · rw [insertAt_length]
      · intro j hj
        rw [getD_insertAt_lt _ _ _ _ _ hj hle]
      · intro j hj1 hj2
        rw [getD_insertAt_ge _ _ _ _ _ hj1]
      · rw [getD_insertAt_self _ _ _ _ hle]
        simp [createFillerBubble, createVisualBubble]
    case pos =>
      obtain ⟨hlt, hsp⟩ := hc
      have h0 : atIndex ≠ 0 := by
        intro h
        exact (visualInv_head s hinv (by omega)) (h ▸ hsp)
      have hOlt : findOwner s (atIndex - 1) < atIndex := by
        have := findOwner_le s (atIndex - 1)
        omega
      have hOlen : findOwner s (atIndex - 1) < s.pairs.length := by omega
      unfold insertFiller
      rw [if_pos ⟨hlt, hsp⟩]
      simp only []
      have hlen1 : ∀ (v : BubblePair), (s.pairs.set (findOwner s (atIndex - 1)) v).length = s.pairs.length := by
        intro v
        rw [List.length_set]
      have hid2 : ∀ j v w, (((s.pairs.set (findOwner s (atIndex - 1)) v).set atIndex w).getD j dfltPair).id =
          (if j = atIndex then w.id else if j = findOwner s (atIndex - 1) then v.id else (s.pairs.getD j dfltPair).id) := by
        intro j v w
        by_cases hja : j = atIndex
        · subst hja
          rw [if_pos rfl, getD_set_self _ _ _ _ (by rw [hlen1]; exact hlt)]
        · rw [if_neg hja, getD_set_ne _ _ _ _ _ (fun h => hja h.symm)]
          by_cases hjo : j = findOwner s (atIndex - 1)
          · subst hjo
            rw [if_pos rfl, getD_set_self _ _ _ _ hOlen]
          · rw [if_neg hjo, getD_set_ne _ _ _ _ _ (fun h => hjo h.symm)]
      have hlen2 : ∀ v w, ((s.pairs.set (findOwner s (atIndex - 1)) v).set atIndex w).length = s.pairs.length := by
        intro v w
        rw [List.length_set, List.length_set]
      refine ⟨?_, ?_, ?_, ?_⟩
      · rw [insertAt_length, hlen2]
      · intro j hj
        rw [getD_insertAt_lt _ _ _ _ _ hj (by rw [hlen2]; exact hle), hid2]
        rw [if_neg (by omega)]
        by_cases hjo : j = findOwner s (atIndex - 1)
        · rw [if_pos hjo, hjo]
        · rw [if_neg hjo]
      · intro j hj1 hj2
        rw [getD_insertAt_ge _ _ _ _ _ hj1, hid2]
        by_cases hja : j = atIndex
        · subst hja
          rw [if_pos rfl]
          simp only []
          rw [getD_set_ne _ _ _ _ _ (by omega)]
        · rw [if_neg hja, if_neg (by omega)]
      · rw [getD_insertAt_self _ _ _ _ (by rw [hlen2]; exact hle)]
        simp [createFillerBubble, createVisualBubble]
  · intro title dur r0 r1 g hr0 hr1
    have hsp1 : spanAt ⟨title, dur, [r0, r1]⟩ 1 = some 0 := by
      simp [spanAt, List.getD, hr1]
    unfold insertFiller
    rw [if_pos ⟨by simp, hsp1⟩]
    simp only []
    have hfo : findOwner ⟨title, dur, [r0, r1]⟩ (1 - 1) = 0 := rfl
    rw [hfo]
    have hsp0 : spanAt ⟨title, dur, [r0, r1]⟩ 0 = some 2 := by
      simp [spanAt, List.getD, hr0]
    rw [hsp0]
    have ho1 : orOne (some 2) = 2 := rfl
    rw [ho1]
    norm_num
    simp [List.set, insertAt, List.getD]

/-- C5 witness: the scenario of the claim on a concrete two-row script. -/
theorem c5_witness :
    ((insertFiller 1 exScript2 100).1.pairs.getD 1 dfltPair).text.type = .filler ∧
    insertFiller 1 (⟨"t", 120, [exPair 1 (some 2), exPair 2 (some 0)]⟩ : Script) 100 =
      (⟨"t", 120,
        [{ exPair 1 (some 2) with visualSpan := none },
         { id := 101, text := createFillerBubble 102, visual := createVisualBubble 103 "", visualSpan := none },
         { exPair 2 (some 0) with visual := createVisualBubble 100 "", visualSpan := none }]⟩, 104) := by
  constructor
  · exact ((c5_insertFiller_inserts.1 exScript2 1 100 (by decide) (by decide)).2.2.2).1
  · exact c5_insertFiller_inserts.2 "t" 120 (exPair 1 (some 2)) (exPair 2 (some 0)) 100
      (by decide) (by decide)

/-! ## C6: updateBubbleDuration clamps to the side-specific minimum -/

/-- C6: for every pair and every requested value `d` (negative values
included), `updateBubbleDuration pairId side d` leaves the document's
length and every non-addressed row unchanged; on the addressed row it
stores `max (sideMin, d)` on the chosen side with `manualDuration`
pinned, where the minimum is 1 second on the spoken side of a filler row
and 0.5 seconds otherwise, so the stored duration is never below the
side-specific minimum. -/
theorem c6_updateBubbleDuration (s : Script) (pairId : Nat) (side : Side) (d : ℚ)
    (i : Nat) (hi : i < s.pairs.length) :
    (updateBubbleDuration pairId side d s).pairs.length = s.pairs.length ∧
    ((s.pairs.getD i dfltPair).id ≠ pairId →
      (updateBubbleDuration pairId side d s).pairs.getD i dfltPair =
        s.pairs.getD i dfltPair) ∧
    ((s.pairs.getD i dfltPair).id = pairId →
      (updateBubbleDuration pairId side d s).pairs.getD i dfltPair =
        updatedPair (s.pairs.getD i dfltPair) side d ∧
      sideMin (s.pairs.getD i dfltPair) side ≤
        sideDur ((updateBubbleDuration pairId side d s).pairs.getD i dfltPair) side) := by
  have hmap : (updateBubbleDuration pairId side d s).pairs.getD i dfltPair =
      (fun p =>
        if p.id = pairId then
          let minDur : ℚ := if p.text.type = .filler ∧ side = .text then 1 else 1/2
          match side with
          | .text => { p with text := { p.text with
              durationSeconds := max minDur d, manualDuration := some true } }
          | .visual => { p with visual := { p.visual with
              durationSeconds := max minDur d, manualDuration := some true } }
        else p) (s.pairs.getD i dfltPair) := by
    unfold updateBubbleDuration
    exact getD_map_lt _ s.pairs i dfltPair dfltPair hi
  refine ⟨by simp [updateBubbleDuration], ?_, ?_⟩
  · intro hne
    rw [hmap]
    simp only [hne, if_false, ite_eq_right_iff]
  · intro heq
    have hif : (updateBubbleDuration pairId side d s).pairs.getD i dfltPair =
        updatedPair (s.pairs.getD i dfltPair) side d := by
      rw [hmap]
      simp only []
      rw [if_pos heq]
      cases side with
      | text => simp [updatedPair, sideMin]
      | visual => simp [updatedPair, sideMin]
    refine ⟨hif, ?_⟩
    rw [hif]
    cases side with
    | text =>
      simp only [updatedPair, sideDur]
      exact le_max_left _ _
    | visual =>
      simp only [updatedPair, sideDur]
      exact le_max_left _ _

/-- C6 witness: requesting −5 seconds on the spoken side of a pause row
stores 1 second (the pause floor). -/
theorem c6_witness :
    ((updateBubbleDuration 7 .text (-5) exPause).pairs.getD 0 dfltPair =
       updatedPair (exPause.pairs.getD 0 dfltPair) .text (-5) ∧
     sideMin (exPause.pairs.getD 0 dfltPair) .text ≤
       sideDur ((updateBubbleDuration 7 .text (-5) exPause).pairs.getD 0 dfltPair) .text) ∧
    sideDur ((updateBubbleDuration 7 .text (-5) exPause).pairs.getD 0 dfltPair) .text = 1 :=
  ⟨(c6_updateBubbleDuration exPause 7 .text (-5) 0 (by decide)).2.2 (by decide), by decide⟩

/-! ## C7: commitPairText respects the manualDuration pin -/

/-- C7: `commitPairText pairId` re-estimates the addressed pair's spoken
`durationSeconds` to `max (estimateDuration content) 0.5` exactly when its
`manualDuration` flag is not set; a pinned pair is left entirely
unchanged, and every pair other than the addressed one is unchanged. -/
theorem c7_commitPairText (s : Script) (pairId : Nat) (i : Nat)
    (hi : i < s.pairs.length) :
    (commitPairText pairId s).pairs.length = s.pairs.length ∧
    ((s.pairs.getD i dfltPair).id ≠ pairId →
      (commitPairText pairId s).pairs.getD i dfltPair = s.pairs.getD i dfltPair) ∧
    ((s.pairs.getD i dfltPair).id = pairId →
      ((s.pairs.getD i dfltPair).text.manualDuration = some true →
        (commitPairText pairId s).pairs.getD i dfltPair = s.pairs.getD i dfltPair) ∧
      (¬ (s.pairs.getD i dfltPair).text.manualDuration = some true →
        (commitPairText pairId s).pairs.getD i dfltPair =
          committedPair (s.pairs.getD i dfltPair))) := by
  have hmap : (commitPairText pairId s).pairs.getD i dfltPair =
      (fun p =>
        if p.id = pairId ∧ ¬ (p.text.manualDuration = some true) then
          committedPair p
        else p) (s.pairs.getD i dfltPair) := by
    unfold commitPairText
    exact getD_map_lt _ s.pairs i dfltPair dfltPair hi
  refine ⟨by simp [commitPairText], ?_, ?_⟩
  · intro hne
    rw [hmap]
    simp only []
    rw [if_neg (fun hc => hne hc.1)]
  · intro heq
    constructor
    · intro hman
      rw [hmap]
      simp only []
      rw [if_neg (fun hc => hc.2 hman)]
    · intro hnm
      rw [hmap]
      simp only []
      rw [if_pos ⟨heq, hnm⟩]

/-- C7 witness: committing the single unpinned row of `exHello`
re-estimates its spoken duration from its content. -/
theorem c7_witness :
    ((exHello.pairs.getD 0 dfltPair).id = 0 ∧
     ¬ (exHello.pairs.getD 0 dfltPair).text.manualDuration = some true) ∧
    (commitPairText 0 exHello).pairs.getD 0 dfltPair =
      committedPair (exHello.pairs.getD 0 dfltPair) :=
  ⟨⟨by decide, by decide⟩,
   ((c7_commitPairText exHello 0 0 (by decide)).2.2 (by decide)).2 (by decide)⟩

/-! ## C8: the edit-mode coordinator -/

/-- C8: the coordinator state is one nullable id; entering edit mode on
`B` while a different row `A` is editing performs exactly one
`commitPairText A` and sets the state to `some B`; entering from any
state leaves exactly `B` reported as editing; entering while `B` itself
(or nothing) is editing commits nothing. -/
theorem c8_enterEditMode (A B : Nat) (doc : Script) (hAB : A ≠ B) :
    enterEditMode B (some A) doc = (some B, commitPairText A doc) ∧
    (∀ st : Option Nat, (enterEditMode B st doc).1 = some B) ∧
    enterEditMode B (some B) doc = (some B, doc) ∧
    enterEditMode B none doc = (some B, doc) := by
  refine ⟨by simp [enterEditMode, hAB], ?_, by simp [enterEditMode], rfl⟩
  intro st
  cases st with
  | none => rfl
  | some a =>
    by_cases h : a ≠ B <;> simp [enterEditMode, h]

/-- C8 witness: entering edit on row 1 while row 0 is editing flushes
exactly one commit of row 0, and the coordinator always reports row 1
afterwards. -/
theorem c8_witness :
    enterEditMode 1 (some 0) exHello = (some 1, commitPairText 0 exHello) ∧
    (enterEditMode 1 (some 5) exHello).1 = some 1 :=
  ⟨(c8_enterEditMode 0 1 exHello (by decide)).1,
   (c8_enterEditMode 0 1 exHello (by decide)).2.1 (some 5)⟩

/-! ## C9: the zoom interpolation of the layout scale -/

/-- C9: for positive natural height `N`, positive container height `H`
and zoom `z ∈ [0,1]`, the fit scale equals `min 1 (H / N)`, the applied
scale equals `1 + z * (fitScale − 1)`, zoom 0 gives scale 1, zoom 1 gives
the fit scale, and the applied scale always lies between the fit scale
and 1. -/
theorem c9_zoom_scale (N H z : ℚ) (hN : 0 < N) (hH : 0 < H)
    (hz0 : 0 ≤ z) (hz1 : z ≤ 1) :
    fitScale N H = min 1 (H / N) ∧
    appliedScale z (fitScale N H) = 1 + z * (fitScale N H - 1) ∧
    appliedScale 0 (fitScale N H) = 1 ∧
    appliedScale 1 (fitScale N H) = fitScale N H ∧
    fitScale N H ≤ appliedScale z (fitScale N H) ∧
    appliedScale z (fitScale N H) ≤ 1 := by
  have hF1 : fitScale N H ≤ 1 := by
    unfold fitScale
    split
    · next hc => exact (div_le_one hN).mpr (le_of_lt hc.1)
    · exact le_refl 1
  have happ : appliedScale z (fitScale N H) = 1 + z * (fitScale N H - 1) := by
    unfold appliedScale
    split
    · rfl
    · next h =>
      have h1 : fitScale N H = 1 := le_antisymm hF1 (not_lt.mp h)
      rw [h1]
      ring
  refine ⟨?_, happ, ?_, ?_, ?_, ?_⟩
  · unfold fitScale
    split
    · next hc => exact (min_eq_right ((div_le_one hN).mpr (le_of_lt hc.1))).symm
    · next hc =>
      have hNH : N ≤ H := by
        by_contra hlt
        exact absurd hH (not_lt.mpr (le_of_not_lt (fun h0 => hc ⟨not_le.mp hlt, h0⟩)))
      exact (min_eq_left ((one_le_div hN).mpr hNH)).symm
  · unfold appliedScale
    split
    · ring
    · rfl
  · unfold appliedScale
    split
    · ring
    · next h => exact (le_antisymm hF1 (not_lt.mp h)).symm
  · rw [happ]
    nlinarith [mul_nonneg (sub_nonneg.mpr hz1) (sub_nonneg.mpr hF1)]
  · rw [happ]
    nlinarith [mul_nonneg hz0 (sub_nonneg.mpr hF1)]

/-- C9 witness: natural height 2, container height 1, zoom 1. -/
theorem c9_witness :
    fitScale 2 1 = min 1 (1 / 2) ∧
    appliedScale 1 (fitScale 2 1) = 1 + 1 * (fitScale 2 1 - 1) ∧
    appliedScale 0 (fitScale 2 1) = 1 ∧
    appliedScale 1 (fitScale 2 1) = fitScale 2 1 ∧
    fitScale 2 1 ≤ appliedScale 1 (fitScale 2 1) ∧
    appliedScale 1 (fitScale 2 1) ≤ 1 :=
  c9_zoom_scale 2 1 1 (by decide) (by decide) (by decide) (by decide)

/-! ## C10: the seconds field of formatTime -/

/-- C10 (amended): for non-negative `s`, `formatTime s` is
`M:SS` with `M = ⌊s / 60⌋` and the seconds field between 0 and 60
inclusive — the field can reach 60 itself, because the remainder is
rounded, so the display is not always strictly below 60. -/
theorem c10_formatTime (s : ℚ) (hs : 0 ≤ s) :
    formatTime s =
      toString (jsFloor (s / 60)) ++ ":" ++ padStart2 (toString (secondsField s)) ∧
    0 ≤ secondsField s ∧ secondsField s ≤ 60 := by
  have hdiv : (0:ℚ) ≤ s / 60 := by positivity
  have htr : jsTrunc (s / 60) = ⌊s / 60⌋ := if_pos hdiv
  have hmod0 : 0 ≤ jsMod s 60 := by
    unfold jsMod
    rw [htr]
    have hfl := Int.floor_le (s / 60)
    linarith
  have hmodlt : jsMod s 60 < 60 := by
    unfold jsMod
    rw [htr]
    have hfl := Int.lt_floor_add_one (s / 60)
    linarith
  refine ⟨rfl, ?_, ?_⟩
  · unfold secondsField jsRound
    exact Int.le_floor.mpr (by push_cast; linarith)
  · unfold secondsField jsRound
    have hlt : ⌊jsMod s 60 + 1/2⌋ < 61 := Int.floor_lt.mpr (by push_cast; linarith)
    omega

/-- C10 witness: the amended statement at `s = 0`. -/
theorem c10_witness :
    (formatTime 0 =
       toString (jsFloor (0 / 60)) ++ ":" ++ padStart2 (toString (secondsField 0)) ∧
     0 ≤ secondsField 0 ∧ secondsField 0 ≤ 60) :=
  c10_formatTime 0 (by decide)

/-- C10 counterexample: at 59.6 seconds the rounded remainder is 60 and
the rendered string is `0:60`, refuting the claim that the displayed
seconds component is always strictly below 60. -/
theorem c10_counterexample :
    formatTime (298/5) = "0:60" ∧ secondsField (298/5) = 60 := by
  have htr : jsTrunc ((298:ℚ)/5 / 60) = 0 := by
    unfold jsTrunc
    rw [if_pos (by norm_num)]
    rw [Int.floor_eq_iff]
    constructor <;> norm_num
  have hmod : jsMod ((298:ℚ)/5) 60 = 298/5 := by
    unfold jsMod
    rw [htr]
    norm_num
  have hsec : secondsField ((298:ℚ)/5) = 60 := by
    unfold secondsField jsRound
    rw [hmod]
    rw [Int.floor_eq_iff]
    constructor <;> norm_num
  have hflo : jsFloor ((298:ℚ)/5 / 60) = 0 := by
    unfold jsFloor
    rw [Int.floor_eq_iff]
    constructor <;> norm_num
  constructor
  · unfold formatTime
    simp only []
    rw [hflo, hsec]
    decide
  · exact hsec

end Bubblebeats
